import Mathlib

/-!
Verification of the record-normalization and field-mapping engine of the
mobile-de-shopify-app repository (server.js).  The JavaScript source is
shallowly embedded: JavaScript runtime values become the inductive type
`JVal`, objects become association lists in insertion order, numbers are
modelled as exact rationals, and code that can raise a runtime TypeError
returns `Except Unit`.  Every definition follows its source function
line by line; built-in runtime operations (String(), JSON.parse,
Number.prototype.toString, the specific regular expressions used by the
source) are modelled explicitly below.
-/

namespace MobileDe

/-- A JavaScript runtime value: undefined, null, boolean, number
(modelled as an exact rational; NaN and infinities do not arise in the
embedded fragment because number parsing is modelled as `Option`),
string, array, or plain object (association list in insertion order). -/
inductive JVal where
  | undef
  | null
  | bool (b : Bool)
  | num (q : ℚ)
  | str (s : String)
  | arr (elems : List JVal)
  | obj (fields : List (String × JVal))

/-- A JavaScript object under construction: association list of fields in
insertion order, as produced by successive property assignments. -/
abbrev Row := List (String × JVal)

/-- JavaScript truthiness of a value (ToBoolean). -/
def JVal.truthy : JVal → Bool
  | .undef => false
  | .null => false
  | .bool b => b
  | .num q => decide (q ≠ 0)
  | .str s => !s.isEmpty
  | .arr _ => true
  | .obj _ => true

/-- The test `value === undefined || value === null || value === ''` used
by the mapping step of buildMetafieldsRow (line 719 of server.js). -/
def JVal.isEmptyish : JVal → Bool
  | .undef => true
  | .null => true
  | .str s => s.isEmpty
  | _ => false

/-- The test `typeof v === 'object'`: true for null, arrays and objects. -/
def JVal.typeofObject : JVal → Bool
  | .null => true
  | .arr _ => true
  | .obj _ => true
  | _ => false

/-- True for arrays and objects (a non-null value of typeof 'object'). -/
def JVal.isObjLike : JVal → Bool
  | .arr _ => true
  | .obj _ => true
  | _ => false

/-- True exactly for plain (non-array) objects. -/
def JVal.isPlainObj : JVal → Bool
  | .obj _ => true
  | _ => false

/-- True for arrays (Array.isArray). -/
def JVal.isArr : JVal → Bool
  | .arr _ => true
  | _ => false

/-- True for strings (typeof v === 'string'). -/
def JVal.isStr : JVal → Bool
  | .str _ => true
  | _ => false

/-- JavaScript logical OR `a || b`: the first operand when truthy,
else the second. -/
def jOr (a b : JVal) : JVal := if a.truthy then a else b

/-- JavaScript nullish coalescing `a ?? b`. -/
def jNullish (a b : JVal) : JVal :=
  match a with
  | .undef => b
  | .null => b
  | v => v

/-- Field lookup in an object association list (first binding wins;
JavaScript objects never hold duplicate keys, and `rowSet` below
preserves that). Absent keys read as undefined. -/
def rowGet (r : Row) (k : String) : JVal :=
  match r.find? (fun kv => kv.1 == k) with
  | some kv => kv.2
  | none => JVal.undef

/-- Key-presence test on an object association list. -/
def rowHas (r : Row) (k : String) : Bool :=
  r.any (fun kv => kv.1 == k)

/-- Property assignment `r[k] = v`: overwrites in place when the key
exists (JavaScript keeps the original insertion position), otherwise
appends the new binding at the end.  Rows only ever hold distinct keys,
so replacing the first occurrence is the JavaScript behaviour. -/
def rowSet : Row → String → JVal → Row
  | [], k, v => [(k, v)]
  | kv :: rest, k, v => if kv.1 == k then (k, v) :: rest else kv :: rowSet rest k v

/-- Property deletion `delete r[k]`. -/
def rowDel (r : Row) (k : String) : Row :=
  r.filter (fun kv => kv.1 != k)

/-- Property access `v[k]` on a value that is not null/undefined:
objects look the key up, arrays answer canonical numeric indices,
every other receiver yields undefined. -/
def jGet : JVal → String → JVal
  | .obj kvs, k => rowGet kvs k
  | .arr xs, k =>
    match k.toNat? with
    | some i => if toString i = k then (xs.getD i .undef) else .undef
    | none => .undef
  | _, _ => JVal.undef

/-- Own-property test (Object.prototype.hasOwnProperty.call) on a
non-null receiver. -/
def jHasOwn : JVal → String → Bool
  | .obj kvs, k => rowHas kvs k
  | .arr xs, k =>
    match k.toNat? with
    | some i => decide (toString i = k) && decide (i < xs.length)
    | none => false
  | _, _ => false

/-- Property access that models the JavaScript TypeError raised when the
receiver is null or undefined (e.g. `a.name` with `a = null`). -/
def jGetE (v : JVal) (k : String) : Except Unit JVal :=
  match v with
  | .undef => .error ()
  | .null => .error ()
  | v => .ok (jGet v k)

/-- Object.prototype.hasOwnProperty.call(v, k), which raises a TypeError
when v is null or undefined. -/
def jHasOwnE (v : JVal) (k : String) : Except Unit Bool :=
  match v with
  | .undef => .error ()
  | .null => .error ()
  | v => .ok (jHasOwn v k)

/-- Characters treated as whitespace by the JavaScript runtime in the
constructs the source uses (String.prototype.trim and the regex class
back-slash-s); modelled over the ASCII range. -/
def jsWhite (c : Char) : Bool :=
  c = ' ' || c = '\t' || c = '\n' || c = '\r' || c = '\x0b' || c = '\x0c'

/-- String.prototype.trim. -/
def jsTrim (s : String) : String :=
  String.mk (((s.toList.dropWhile jsWhite).reverse.dropWhile jsWhite).reverse)

/-- Smallest number of decimal digits that writes the rational exactly
(none when it has no finite decimal expansion; never the case for the
numbers the embedded code produces). -/
def decExp (q : ℚ) : Option ℕ :=
  (List.range 40).find? (fun e => (q * (10 : ℚ) ^ e).den = 1)

/-- Pad a natural number with leading zeros to a fixed digit count. -/
def natPad (n e : ℕ) : String :=
  String.mk (List.replicate (e - (toString n).length) '0') ++ toString n

/-- Number.prototype.toString for the (small, finitely-decimal) numbers
produced by the embedded code: shortest exact decimal form, no trailing
zeros, no exponent form. -/
def qToString (q : ℚ) : String :=
  match decExp q with
  | none => toString q
  | some e =>
    let m := (q * (10 : ℚ) ^ e).num.natAbs
    let sign := if q < 0 then "-" else ""
    if e = 0 then sign ++ toString m
    else sign ++ toString (m / 10 ^ e) ++ "." ++ natPad (m % 10 ^ e) e

/- String(v), the JavaScript string coercion.  Arrays join their
elements with a comma, null/undefined elements becoming empty
(Array.prototype.toString); the element cases are spelled out again in
jsElemString so that the recursion is structural. -/
mutual

/-- String(v): JavaScript string coercion of a value. -/
def jsToString : JVal → String
  | .undef => "undefined"
  | .null => "null"
  | .bool b => cond b "true" "false"
  | .num q => qToString q
  | .str s => s
  | .arr xs => jsJoinElems xs
  | .obj _ => "[object Object]"

def jsJoinElems : List JVal → String
  | [] => ""
  | [v] => jsElemString v
  | v :: rest => jsElemString v ++ "," ++ jsJoinElems rest

def jsElemString : JVal → String
  | .undef => ""
  | .null => ""
  | .bool b => cond b "true" "false"
  | .num q => qToString q
  | .str s => s
  | .arr xs => jsJoinElems xs
  | .obj _ => "[object Object]"

end

/-- JSON insignificant whitespace. -/
def jsonWhite (c : Char) : Bool :=
  c = ' ' || c = '\t' || c = '\n' || c = '\r'

/-- Value of a hexadecimal digit, for JSON unicode escapes. -/
def hexVal (c : Char) : Option ℕ :=
  if '0' ≤ c ∧ c ≤ '9' then some (c.toNat - '0'.toNat)
  else if 'a' ≤ c ∧ c ≤ 'f' then some (c.toNat - 'a'.toNat + 10)
  else if 'A' ≤ c ∧ c ≤ 'F' then some (c.toNat - 'A'.toNat + 10)
  else none

/-- Parse the body of a JSON string literal (after the opening quote),
returning the decoded characters and the input past the closing quote. -/
def pStrChars : List Char → Option (List Char × List Char)
  | [] => none
  | '"' :: rest => some ([], rest)
  | '\\' :: rest =>
    match rest with
    | 'u' :: h1 :: h2 :: h3 :: h4 :: rest2 =>
      match hexVal h1, hexVal h2, hexVal h3, hexVal h4 with
      | some a, some b, some c, some d =>
        match pStrChars rest2 with
        | some (cs, rem) => some (Char.ofNat (((a * 16 + b) * 16 + c) * 16 + d) :: cs, rem)
        | none => none
      | _, _, _, _ => none
    | e :: rest2 =>
      match
        (if e = '"' then some '"'
         else if e = '\\' then some '\\'
         else if e = '/' then some '/'
         else if e = 'b' then some '\x08'
         else if e = 'f' then some '\x0c'
         else if e = 'n' then some '\n'
         else if e = 'r' then some '\r'
         else if e = 't' then some '\t'
         else none) with
      | some c =>
        match pStrChars rest2 with
        | some (cs, rem) => some (c :: cs, rem)
        | none => none
      | none => none
    | [] => none
  | c :: rest =>
    if c.toNat < 32 then none
    else
      match pStrChars rest with
      | some (cs, rem) => some (c :: cs, rem)
      | none => none

/-- Numeric value of a list of decimal digit characters. -/
def digitsToNat (ds : List Char) : ℕ :=
  ds.foldl (fun acc c => acc * 10 + (c.toNat - '0'.toNat)) 0

/-- Parse a strict JSON number literal: optional minus, integer part
with no leading zero, optional fraction, optional exponent. -/
def pNum (cs : List Char) : Option (ℚ × List Char) :=
  let (neg, cs1) :=
    match cs with
    | '-' :: r => (true, r)
    | _ => (false, cs)
  let ints := cs1.takeWhile Char.isDigit
  let cs2 := cs1.dropWhile Char.isDigit
  if ints.isEmpty then none
  else if 1 < ints.length ∧ ints.headD ' ' = '0' then none
  else
    let ipart : ℚ := (digitsToNat ints : ℚ)
    let contFrac : Option (ℚ × List Char) :=
      match cs2 with
      | '.' :: r =>
        let fds := r.takeWhile Char.isDigit
        let r2 := r.dropWhile Char.isDigit
        if fds.isEmpty then none
        else some (ipart + (digitsToNat fds : ℚ) / (10 : ℚ) ^ fds.length, r2)
      | _ => some (ipart, cs2)
    match contFrac with
    | none => none
    | some (mant, cs3) =>
      let contExp : Option (ℚ × List Char) :=
        match cs3 with
        | 'e' :: r => some (0, r)
        | 'E' :: r => some (0, r)
        | _ => none
      match contExp with
      | none => some ((if neg then -mant else mant), cs3)
      | some (_, r) =>
        let (eneg, r1) :=
          match r with
          | '-' :: rr => (true, rr)
          | '+' :: rr => (false, rr)
          | _ => (false, r)
        let eds := r1.takeWhile Char.isDigit
        let r2 := r1.dropWhile Char.isDigit
        if eds.isEmpty then none
        else
          let sc : ℚ := if eneg then ((10 : ℚ) ^ digitsToNat eds)⁻¹ else (10 : ℚ) ^ digitsToNat eds
          some ((if neg then -(mant * sc) else mant * sc), r2)

mutual

/-- Parse one strict JSON value (fuel-indexed recursive descent),
returning the value and the remaining input. -/
def pVal (fuel : ℕ) (cs : List Char) : Option (JVal × List Char) :=
  match fuel with
  | 0 => none
  | fuel + 1 =>
    match cs.dropWhile jsonWhite with
    | 'n' :: 'u' :: 'l' :: 'l' :: rest => some (.null, rest)
    | 't' :: 'r' :: 'u' :: 'e' :: rest => some (.bool true, rest)
    | 'f' :: 'a' :: 'l' :: 's' :: 'e' :: rest => some (.bool false, rest)
    | '"' :: rest =>
      match pStrChars rest with
      | some (chars, rem) => some (.str (String.mk chars), rem)
      | none => none
    | '[' :: rest =>
      (match (rest.dropWhile jsonWhite) with
       | ']' :: rem => some (.arr [], rem)
       | _ =>
         match pElems fuel rest with
         | some (xs, rem) => some (.arr xs, rem)
         | none => none)
    | '{' :: rest =>
      (match (rest.dropWhile jsonWhite) with
       | '}' :: rem => some (.obj [], rem)
       | _ =>
         match pMembers fuel rest with
         | some (kvs, rem) =>
           -- a repeated key keeps its first position with the last value,
           -- as in the JavaScript runtime
           some (.obj (kvs.foldl (fun acc kv => rowSet acc kv.1 kv.2) []), rem)
         | none => none)
    | rest =>
      match pNum rest with
      | some (q, rem) => some (.num q, rem)
      | none => none

/-- Parse one-or-more comma-separated JSON array elements up to the
closing bracket. -/
def pElems (fuel : ℕ) (cs : List Char) : Option (List JVal × List Char) :=
  match fuel with
  | 0 => none
  | fuel + 1 =>
    match pVal fuel cs with
    | none => none
    | some (v, rest) =>
      match rest.dropWhile jsonWhite with
      | ',' :: rest2 =>
        match pElems fuel rest2 with
        | some (xs, rem) => some (v :: xs, rem)
        | none => none
      | ']' :: rem => some ([v], rem)
      | _ => none

/-- Parse one-or-more comma-separated JSON object members up to the
closing brace. -/
def pMembers (fuel : ℕ) (cs : List Char) : Option (List (String × JVal) × List Char) :=
  match fuel with
  | 0 => none
  | fuel + 1 =>
    match cs.dropWhile jsonWhite with
    | '"' :: rest =>
      (match pStrChars rest with
       | none => none
       | some (kcs, rest2) =>
         match rest2.dropWhile jsonWhite with
         | ':' :: rest3 =>
           (match pVal fuel rest3 with
            | none => none
            | some (v, rest4) =>
              match rest4.dropWhile jsonWhite with
              | ',' :: rest5 =>
                (match pMembers fuel rest5 with
                 | some (kvs, rem) => some ((String.mk kcs, v) :: kvs, rem)
                 | none => none)
              | '}' :: rem => some ([(String.mk kcs, v)], rem)
              | _ => none)
         | _ => none)
    | _ => none

end

/-- JSON.parse: parse one value and require only whitespace after it. -/
def jsonParse (s : String) : Option JVal :=
  match pVal (s.length + 1) s.toList with
  | some (v, rest) => if (rest.dropWhile jsonWhite).isEmpty then some v else none
  | none => none

/- The split `str.split(regex of semicolon-or-comma plus trailing
whitespace)`: a delimiter is one ';' or ',' together with the
whitespace immediately following it; whitespace before a delimiter
stays attached to the preceding piece.  splitAfter consumes the
whitespace that follows a delimiter. -/
mutual

/-- Split on ';' or ',' plus following whitespace; see above. -/
def splitDelim : List Char → List Char → List String
  | [], acc => [String.mk acc.reverse]
  | c :: rest, acc =>
    if c = ';' || c = ',' then String.mk acc.reverse :: splitAfter rest
    else splitDelim rest (c :: acc)

/-- Consume the whitespace after a delimiter, then continue splitting. -/
def splitAfter : List Char → List String
  | [] => [""]
  | c :: rest =>
    if jsWhite c then splitAfter rest
    else if c = ';' || c = ',' then "" :: splitAfter rest
    else splitDelim rest [c]

end

/-- The test `/[;,]/.test(str)`. -/
def hasDelim (s : String) : Bool :=
  s.toList.any (fun c => c = ';' || c = ',')

/-- safeParseMaybeList (server.js lines 292-310): coerce a value into a
list.  null/undefined give the empty list; arrays pass through; other
values are stringified and trimmed, then strictly JSON-parsed (an array
parses to itself, a truthy object wraps into a one-element list, any
other parse outcome gives the empty list); if the parse fails the
string is split on ';' or ',' plus following whitespace (empty pieces
dropped) when a delimiter is present, else wrapped into a one-element
list. -/
def safeParseMaybeList (value : JVal) : List JVal :=
  match value with
  | .null => []
  | .undef => []
  | .arr xs => xs
  | v =>
    let str := jsTrim (jsToString v)
    if str.isEmpty then []
    else
      match jsonParse str with
      | some (.arr xs) => xs
      | some (.obj kvs) => [.obj kvs]
      | some _ => []
      | none =>
        if hasDelim str then
          ((splitDelim str.toList []).filter (fun t => !t.isEmpty)).map JVal.str
        else [.str str]

/-- After the digit group of the kW regex: optional whitespace then the
letters k and W, case-insensitively. -/
def afterKw (cs : List Char) : Bool :=
  match cs.dropWhile jsWhite with
  | k :: w :: _ => (k = 'k' || k = 'K') && (w = 'w' || w = 'W')
  | _ => false

/-- After the digit group of the parenthesised hp regex: optional
whitespace, the letters h and p case-insensitively, then a closing
parenthesis. -/
def afterHp (cs : List Char) : Bool :=
  match cs.dropWhile jsWhite with
  | h :: p :: cp :: _ => (h = 'h' || h = 'H') && (p = 'p' || p = 'P') && cp = ')'
  | _ => false

/-- One backtracking attempt of the group (back-slash-d){2,4}: exactly
n digits at the head, then the continuation test. -/
def tryLen24 (after : List Char → Bool) (cs : List Char) (n : ℕ) : Option String :=
  let ds := cs.take n
  if ds.length = n && ds.all Char.isDigit && after (cs.drop n) then
    some (String.mk ds)
  else none

/-- Greedy attempt of the group (back-slash-d){2,4} at the head of the
input: try four digits, then three, then two, accepting the first
length after which the continuation test succeeds — exactly the
backtracking order of the regex engine. -/
def tryDigits24 (after : List Char → Bool) (cs : List Char) : Option String :=
  match tryLen24 after cs 4 with
  | some s => some s
  | none =>
    match tryLen24 after cs 3 with
    | some s => some s
    | none => tryLen24 after cs 2

/-- Leftmost match of the regex (back-slash-d){2,4} followed by optional
whitespace and kW, case-insensitive: the regex of extractKwHp for the
metric unit.  Nothing excludes a match inside parentheses. -/
def kwSearch : List Char → Option String
  | [] => none
  | c :: rest =>
    match tryDigits24 afterKw (c :: rest) with
    | some s => some s
    | none => kwSearch rest

/-- Leftmost match of the regex for the parenthesised imperial unit of
extractKwHp: a literal opening parenthesis, 2-4 digits, optional
whitespace, hp, and a closing parenthesis. -/
def hpSearch : List Char → Option String
  | [] => none
  | c :: rest =>
    if c = '(' then
      match tryDigits24 afterHp rest with
      | some s => some s
      | none => hpSearch rest
    else hpSearch rest

/-- extractKwHp (server.js lines 638-646): extract the kW number (mode
"kw") or the parenthesised hp number (mode "cp") from a string such as
"195 kW (265 hp)"; empty string when the pattern is absent, the mode
is unknown, or the value is null/undefined. -/
def extractKwHp (value : JVal) (mode : String) : String :=
  match value with
  | .null => ""
  | .undef => ""
  | v =>
    let str := jsToString v
    let kwMatch := kwSearch str.toList
    let hpMatch := hpSearch str.toList
    if mode = "kw" && kwMatch.isSome then kwMatch.getD ""
    else if mode = "cp" && hpMatch.isSome then hpMatch.getD ""
    else ""

/-- A word character of the regex class back-slash-w (for the word
boundary in the power-recompute regex). -/
def isWordChar (c : Char) : Bool :=
  c.isAlpha || c.isDigit || c = '_'

/-- A character of the regex class [digits, dot, comma] used by the
power-recompute regexes of buildMetafieldsRow (lines 1081-1083). -/
def isRunChar (c : Char) : Bool :=
  c.isDigit || c = '.' || c = ','

/-- Leftmost match of the power-recompute kW regex: word boundary, one
or more digits followed by any digits/dots/commas (the greedy group can
only succeed on the maximal such run, because a shorter choice leaves a
run character where the regex next requires whitespace or the letter
k), optional whitespace, kW case-insensitive.  The parameter carries
whether the previous character was a word character, for the boundary
test. -/
def kwRunSearch (prevWord : Bool) : List Char → Option String
  | [] => none
  | c :: rest =>
    if !prevWord && c.isDigit then
      let run := (c :: rest).takeWhile isRunChar
      if afterKw ((c :: rest).drop run.length) then some (String.mk run)
      else kwRunSearch (isWordChar c) rest
    else kwRunSearch (isWordChar c) rest

/-- Leftmost match of the power-recompute hp regex: a literal opening
parenthesis, a digit run as in kwRunSearch, optional whitespace, hp
case-insensitive, closing parenthesis. -/
def hpRunSearch : List Char → Option String
  | [] => none
  | '(' :: rest =>
    (match rest with
     | c :: _ =>
       if c.isDigit then
         let run := rest.takeWhile isRunChar
         if afterHp (rest.drop run.length) then some (String.mk run)
         else hpRunSearch rest
       else hpRunSearch rest
     | [] => none)
  | _ :: rest => hpRunSearch rest

/-- The character class [a-z0-9] kept verbatim by the slug regex. -/
def slugKeep (c : Char) : Bool :=
  ('a' ≤ c && c ≤ 'z') || ('0' ≤ c && c ≤ '9')

/- replace(/[^a-z0-9]+/g, '-'): collapse every maximal run of
characters outside [a-z0-9] into a single hyphen; slugSkip walks the
rest of a run already collapsed. -/
mutual

/-- Collapse runs of non-[a-z0-9] characters to single hyphens. -/
def slugCollapse : List Char → List Char
  | [] => []
  | c :: rest =>
    if slugKeep c then c :: slugCollapse rest
    else '-' :: slugSkip rest

/-- Skip the remainder of a collapsed run. -/
def slugSkip : List Char → List Char
  | [] => []
  | c :: rest =>
    if slugKeep c then c :: slugCollapse rest
    else slugSkip rest

end

/-- replace(/^-+|-+$/g, ''): trim leading and trailing hyphens. -/
def trimHyphens (cs : List Char) : List Char :=
  ((cs.dropWhile (fun c => c = '-')).reverse.dropWhile (fun c => c = '-')).reverse

/-- Char.toLower restricted to ASCII, modelling toLowerCase on the
alphabets the slug construction can keep (every character whose
lowercase form is outside [a-z0-9] is collapsed to a hyphen anyway). -/
def jsLowerChar (c : Char) : Char :=
  if 'A' ≤ c ∧ c ≤ 'Z' then Char.ofNat (c.toNat + 32) else c

/-- toLowerCase of a whole string (ASCII model). -/
def jsLower (s : String) : String :=
  String.mk (s.toList.map jsLowerChar)

/-- The slug of a (already trimmed) title: lowercase, collapse non
[a-z0-9] runs to single hyphens, trim boundary hyphens (server.js
lines 780-783). -/
def slugOf (rawTitle : String) : String :=
  String.mk (trimHyphens (slugCollapse ((jsLower rawTitle).toList)))

/-- A character of the class [0-9.]. -/
def isNumDot (c : Char) : Bool :=
  c.isDigit || c = '.'

/-- First maximal run of characters satisfying a class — the match of a
regex of shape [class]+ against a string. -/
def firstRun (p : Char → Bool) : List Char → Option String
  | [] => none
  | c :: rest =>
    if p c then some (String.mk ((c :: rest).takeWhile p))
    else firstRun p rest

/-- The amount-cleaning chain of the Variant Price block (lines
818-833): drop whitespace, drop currency symbols, trim; when both a
comma and a dot are present drop every comma (thousands separators);
when only commas are present turn them into dots (decimal separator);
finally keep the first [0-9.]+ run when one exists. -/
def cleanAmount (s : String) : String :=
  let c1 := String.mk (s.toList.filter (fun c => !jsWhite c))
  let c2 := String.mk (c1.toList.filter (fun c => !(c = '€' || c = '£' || c = '$')))
  let c3 := jsTrim c2
  let hasComma := c3.toList.any (fun c => c = ',')
  let hasDot := c3.toList.any (fun c => c = '.')
  let c4 := if hasComma && hasDot then String.mk (c3.toList.filter (fun c => c ≠ ',')) else c3
  let hasDot4 := c4.toList.any (fun c => c = '.')
  let hasComma4 := c4.toList.any (fun c => c = ',')
  let c5 :=
    if !hasDot4 && hasComma4 then
      String.mk (c4.toList.map (fun c => if c = ',' then '.' else c))
    else c4
  match firstRun isNumDot c5.toList with
  | some m => m
  | none => c5

/-- parseFloat restricted to the inputs that the cleaning above can
produce (no exponent notation can survive the [0-9.]+ cut, and a
string without digits yields NaN, modelled as none). -/
def parseFloatQ (s : String) : Option ℚ :=
  let cs := s.toList.dropWhile jsWhite
  let (neg, cs1) :=
    match cs with
    | '-' :: r => (true, r)
    | '+' :: r => (false, r)
    | _ => (false, cs)
  let ints := cs1.takeWhile Char.isDigit
  let cs2 := cs1.dropWhile Char.isDigit
  let fr :=
    match cs2 with
    | '.' :: r => r.takeWhile Char.isDigit
    | _ => []
  if ints.isEmpty && fr.isEmpty then none
  else
    let mant : ℚ := (digitsToNat ints : ℚ) + (digitsToNat fr : ℚ) / (10 : ℚ) ^ fr.length
    some (if neg then -mant else mant)

/-- The commission tier of the Variant Price rule, selected on the raw
parsed amount (lines 841-848). -/
def commissionRate (amt : ℚ) : ℚ :=
  if amt < 25000 then 0.095
  else if amt < 40000 then 0.075
  else if amt < 60000 then 0.065
  else if amt < 90000 then 0.055
  else if amt < 250000 then 0.045
  else 0.035

/-- Math.round(x * 100) / 100: round to two decimals, halves away from
zero for the positive amounts this is applied to (Math.round is floor
of x + 1/2, which is Mathlib's round). -/
def round2 (q : ℚ) : ℚ :=
  ((round (q * 100) : ℤ) : ℚ) / 100

/-- The final Variant Price figure for a parsed positive amount: VAT
rebase by 1.21/1.19, commission multiplier on the original amount,
rounded to two decimals (lines 836-853). -/
def variantPriceOf (n : ℚ) : ℚ :=
  round2 (n * 1.21 / 1.19 * (1 + commissionRate n))

/-- ATTR_TRANSLATIONS (server.js lines 24-60): attribute display names. -/
def ATTR_TRANSLATIONS : List (String × String) := [
  ("Vehicle condition", "Stare vehicul"),
  ("Category", "Categorie"),
  ("Model range", "Gamă model"),
  ("Trim line", "Nivel echipare"),
  ("Vehicle Number", "Număr vehicul"),
  ("Availability", "Disponibilitate"),
  ("Origin", "Origine"),
  ("Mileage", "Kilometraj"),
  ("Cubic Capacity", "Capacitate cilindrică"),
  ("Power", "Putere"),
  ("Drive type", "Tip tracțiune"),
  ("Fuel", "Combustibil"),
  ("Number of Seats", "Număr de locuri"),
  ("Door Count", "Număr uși"),
  ("Sliding door", "Ușă culisantă"),
  ("Transmission", "Transmisie"),
  ("Emission Class", "Clasă de emisii"),
  ("Emissions Sticker", "Etichetă emisii"),
  ("First Registration", "Prima înmatriculare"),
  ("Number of Vehicle Owners", "Număr de proprietari"),
  ("HU", "ITP"),
  ("Climatisation", "Climatizare"),
  ("Parking sensors", "Senzori parcare"),
  ("Airbags", "Airbaguri"),
  ("Colour (Manufacturer)", "Culoare (producător)"),
  ("Colour", "Culoare"),
  ("Interior Design", "Design interior"),
  ("Energy consumption (comb.)", "Consum de energie (comb.)"),
  ("CO₂ emissions (comb.)", "Emisii CO₂ (comb.)"),
  ("Trailer load braked", "Sarcină remorcă frânată"),
  ("Trailer load unbraked", "Sarcină remorcă nefrânată"),
  ("Weight", "Greutate"),
  ("Last service (mileage)", "Ultimul service (kilometraj)"),
  ("Cylinders", "Cilindri"),
  ("Tank capacity", "Capacitate rezervor")]

/-- FEATURE_TRANSLATIONS (lines 62-112): feature display strings. -/
def FEATURE_TRANSLATIONS : List (String × String) := [
  ("ABS", "ABS"),
  ("Adaptive Cruise Control", "Control adaptiv al vitezei"),
  ("Adaptive lighting", "Iluminare adaptivă"),
  ("Alarm system", "Sistem de alarmă"),
  ("Alloy wheels", "Jante din aliaj"),
  ("Arm rest", "Cotieră"),
  ("Bi-xenon headlights", "Faruri bi-xenon"),
  ("Bluetooth", "Bluetooth"),
  ("Cargo barrier", "Barieră pentru bagaje"),
  ("CD player", "CD player"),
  ("Central locking", "Închidere centralizată"),
  ("Cruise control", "Pilot automat"),
  ("Distance warning system", "Sistem avertizare distanță"),
  ("Electric seat adjustment", "Reglaj electric scaune"),
  ("Electric windows", "Geamuri electrice"),
  ("Emergency brake assist", "Asistență frânare de urgență"),
  ("ESP", "ESP"),
  ("Front wheel drive", "Tracțiune față"),
  ("Hands-free kit", "Set mâini libere"),
  ("Headlight washer system", "Sistem spălare faruri"),
  ("Heated seats", "Scaune încălzite"),
  ("Hill-start assist", "Asistență la pornirea în rampă"),
  ("Immobilizer", "Imobilizator"),
  ("Isofix", "Isofix"),
  ("Leather steering wheel", "Volan îmbrăcat în piele"),
  ("LED running lights", "Lumini de zi LED"),
  ("Light sensor", "Senzor lumină"),
  ("Lumbar support", "Suport lombar"),
  ("Massage seats", "Scaune masaj"),
  ("Multifunction steering wheel", "Volan multifuncțional"),
  ("Navigation system", "Sistem de navigație"),
  ("On-board computer", "Computer de bord"),
  ("Panoramic roof", "Plafon panoramic"),
  ("Passenger seat Isofix point", "Punct Isofix pentru scaun pasager"),
  ("Power Steering", "Servodirecție"),
  ("Rain sensor", "Senzor de ploaie"),
  ("Roof rack", "Portbagaj pe acoperiș"),
  ("Ski bag", "Sac pentru schiuri"),
  ("Sound system", "Sistem audio"),
  ("Speed limit control system", "Sistem control limită viteză"),
  ("Sunroof", "Trapă"),
  ("Tinted windows", "Geamuri fumurii"),
  ("Touchscreen", "Ecran tactil"),
  ("Traction control", "Control tracțiune"),
  ("Traffic sign recognition", "Recunoaștere indicatoare"),
  ("Tuner/radio", "Radio"),
  ("Tyre pressure monitoring", "Monitorizare presiune anvelope"),
  ("USB port", "Port USB"),
  ("Winter package", "Pachet de iarnă")]

/-- VALUE_TRANSLATIONS (lines 114-181): attribute value translations.
The source object literal repeats a few keys; per JavaScript literal
semantics the later value wins while the key keeps its first position,
which is what this deduplicated list records. -/
def VALUE_TRANSLATIONS : List (String × String) := [
  ("Used vehicle", "Vehicul folosit"),
  ("Accident-free", "Fără accident"),
  ("Saloon", "Sedan"),
  ("Cabriolet / Roadster", "Cabriolet / Roadster"),
  ("Estate car", "Break"),
  ("Van / Minibus", "Van / Microbuz"),
  ("Now", "Acum"),
  ("German edition", "Ediție germană"),
  ("Internal combustion engine", "Motor cu combustie internă"),
  ("Petrol", "Benzină"),
  ("Diesel", "Diesel"),
  ("Petrol, E10-enabled", "Benzină, compatibil E10"),
  ("Automatic", "Automată"),
  ("Manual gearbox", "Manuală"),
  ("Manual", "Manuală"),
  ("Automatic climatisation, 2 zones", "Climatizare automată, 2 zone"),
  ("Automatic climatisation, 3 zones", "Climatizare automată, 3 zone"),
  ("Automatic air conditioning", "Aer condiționat automat"),
  ("Rear, Front", "Spate, Față"),
  ("Rear, Camera, Front", "Spate, Cameră, Față"),
  ("Driver Airbag", "Airbag șofer"),
  ("Front and Side Airbags", "Airbaguri frontale și laterale"),
  ("Front and Side and More Airbags", "Airbaguri frontale, laterale și altele"),
  ("Pure White", "Alb Pur"),
  ("Black Metallic", "Negru Metalic"),
  ("Brown Metallic", "Maro Metalic"),
  ("Blue", "Albastru"),
  ("Red", "Roșu"),
  ("Cloth, Black", "Textil, Negru"),
  ("Cloth, Brown", "Textil, Maro"),
  ("Full leather, Beige", "Piele integrală, Bej"),
  ("Full leather, Brown", "Piele integrală, Maro"),
  ("Full leather, Other", "Piele integrală, Alte"),
  ("Euro5", "Euro5"),
  ("Euro6", "Euro6"),
  ("4 (Green)", "4 (Verde)"),
  ("New", "Nou"),
  ("Used", "Folosit"),
  ("Automatic gearbox", "Automată"),
  ("Brown", "Maro"),
  ("White", "Alb"),
  ("Black", "Negru"),
  ("Internal", "Intern"),
  ("Front", "Față"),
  ("Rear", "Spate"),
  ("Camera", "Cameră")]

/-- Dictionary lookup TABLE[k] on a translation table. -/
def lookupTrans (table : List (String × String)) (k : String) : Option String :=
  (table.find? (fun kv => kv.1 == k)).map (fun kv => kv.2)

/-- The string content of a string value (only called on strings). -/
def strContent : JVal → String
  | .str s => s
  | v => jsToString v

/-- The normalisation of one attribute element in the object branch:
rawAttrs.map of name = a.name or a.key or empty, value = a.value ?? empty.
Property access on a null/undefined element raises (the unguarded
a.name of server.js lines 373-376 and 472-475). -/
def normAttrPairE (a : JVal) : Except Unit (JVal × JVal) :=
  match a with
  | .undef => .error ()
  | .null => .error ()
  | v => .ok (jOr (jGet v "name") (jOr (jGet v "key") (.str "")),
              jNullish (jGet v "value") (.str ""))

/-- Split on a character predicate, keeping empty pieces, as
String.prototype.split with a single-character-class regex does. -/
def splitCharsAux (p : Char → Bool) : List Char → List Char → List String
  | acc, [] => [String.mk acc.reverse]
  | acc, c :: rest =>
    if p c then String.mk acc.reverse :: splitCharsAux p [] rest
    else splitCharsAux p (c :: acc) rest

/-- String split on a character predicate (empty pieces kept). -/
def jsSplit (s : String) (p : Char → Bool) : List String :=
  splitCharsAux p [] s.toList

/-- Split a string element of the attribute fallback branch: split on
';' or '|', then each piece once on the first ':' into a trimmed
name/value pair (lines 378-384 and 478-487). -/
def attrPairsOfStrings (rawAttrs : List JVal) : List (String × String) :=
  ((rawAttrs.map (fun s => jsSplit (jsToString s) (fun c => c = ';' || c = '|'))).flatten.map
    (fun kv =>
      let parts := jsSplit kv (fun c => c = ':')
      (jsTrim (parts.headD ""), jsTrim (String.intercalate ":" parts.tail))))
    |>.filter (fun a => !(a.1.isEmpty && a.2.isEmpty))

/-- The shared attribute decoding of normalizeItem (lines 367-385) and
expandAttributesToColumns (lines 466-488): when the first element is of
typeof 'object' and owns a name or key property, normalise each element
with normAttrPairE (the own-property test itself raises on a null first
element); otherwise decode string elements with attrPairsOfStrings. -/
def decodeAttrPairs (rawAttrs : List JVal) : Except Unit (List (JVal × JVal)) :=
  match rawAttrs with
  | [] => .ok []
  | a0 :: _ => do
    let branch1 ←
      if a0.typeofObject then do
        let hn ← jHasOwnE a0 "name"
        if hn then pure true else jHasOwnE a0 "key"
      else pure false
    if branch1 then
      rawAttrs.mapM normAttrPairE
    else
      pure ((attrPairsOfStrings rawAttrs).map (fun p => (JVal.str p.1, JVal.str p.2)))

/-- Object.entries(v).map of k,v into the attribute-object shape with a
name and a value field (lines 435, 441, 459). -/
def objEntriesAsNV : JVal → List JVal
  | .obj kvs => kvs.map (fun kv => JVal.obj [("name", .str kv.1), ("value", kv.2)])
  | _ => []

/-- The first whitespace-delimited token, strVal.split on whitespace
runs at index zero, for the already-trimmed strings it is applied to. -/
def firstTokenOf (s : String) : String :=
  String.mk (s.toList.takeWhile (fun c => !jsWhite c))

/-- The value-shortening heuristic of expandAttributesToColumns (lines
506-535): numeric-leading values keep the first token when it carries a
letter, else the leading [0-9][0-9,./]* run; otherwise a comma whose
right side does not start with a digit delimits a phrase and the first
word before it is taken; otherwise the first word of the whole value. -/
def shortenVal (strVal : String) : String :=
  let cs := strVal.toList
  if (cs.headD ' ').isDigit then
    let firstToken := firstTokenOf strVal
    if firstToken.toList.any Char.isAlpha then firstToken
    else
      match cs with
      | c :: rest =>
        if c.isDigit then
          String.mk (c :: rest.takeWhile (fun d => d.isDigit || d = ',' || d = '.' || d = '/'))
        else strVal
      | [] => strVal
  else
    let shortVal1 :=
      match cs.findIdx? (fun c => c = ',') with
      | some i =>
        let second := jsTrim (String.mk (cs.drop (i + 1)))
        if !second.isEmpty && !(second.toList.headD ' ').isDigit then
          firstTokenOf (jsTrim (String.mk (cs.take i)))
        else ""
      | none => ""
    if shortVal1.isEmpty then firstTokenOf strVal else shortVal1

/-- The colour attributes whose values are exempt from value
translation (lines 542-543 and 918-919). -/
def skipValueTranslation (rawKey : String) : Bool :=
  rawKey == "Colour" || rawKey == "Colour (Manufacturer)"

/-- expandAttributesToColumns (lines 424-553): turn the raw attributes
field into one column per (translated) attribute name holding the
shortened, possibly translated value; the first attribute with a given
display name wins. -/
def expandAttributesToColumns (item : JVal) : Except Unit Row := do
  let attrRaw := if item.truthy then jGet item "attributes" else item
  let stage1 : Option (List JVal) :=
    if attrRaw.truthy && attrRaw.isPlainObj then
      some (objEntriesAsNV attrRaw)
    else if attrRaw.truthy && attrRaw.isStr then
      match jsonParse (strContent attrRaw) with
      | some (.obj kvs) => some (objEntriesAsNV (.obj kvs))
      | _ => none
    else none
  let rawAttrs : List JVal :=
    match stage1 with
    | some l => l
    | none =>
      if item.truthy && (jGet item "attributes").truthy
          && (jGet item "attributes").isPlainObj then
        objEntriesAsNV (jGet item "attributes")
      else safeParseMaybeList attrRaw
  let attrs ← decodeAttrPairs rawAttrs
  let cols := attrs.foldl
    (fun cols attr =>
      let rawName := if attr.1.truthy then jsTrim (jsToString attr.1) else ""
      if rawName.isEmpty then cols
      else
        let name := (lookupTrans ATTR_TRANSLATIONS rawName).getD rawName
        let val1 := match attr.2 with | .arr (x :: _) => x | v => v
        let strVal := match val1 with
          | .undef => ""
          | .null => ""
          | v => jsTrim (jsToString v)
        let shortVal := shortenVal strVal
        let translatedVal :=
          if skipValueTranslation rawName then shortVal
          else (lookupTrans VALUE_TRANSLATIONS shortVal).getD shortVal
        if rowHas cols name then cols else rowSet cols name (.str translatedVal))
    []
  pure cols

/-- JSON string-literal escaping for JSON.stringify. -/
def jsonQuote (s : String) : String :=
  "\"" ++ String.mk (s.toList.flatMap (fun c =>
    if c = '"' then ['\\', '"']
    else if c = '\\' then ['\\', '\\']
    else if c = '\n' then ['\\', 'n']
    else if c = '\r' then ['\\', 'r']
    else if c = '\t' then ['\\', 't']
    else if c = '\x08' then ['\\', 'b']
    else if c = '\x0c' then ['\\', 'f']
    else if c.toNat < 32 then
      '\\' :: 'u' :: '0' :: '0' :: (natPad c.toNat 2).toList
    else [c])) ++ "\""

/- JSON.stringify for the values the normalizer serialises: undefined
inside an array becomes null, undefined object values are dropped; the
element cases are spelled out so the recursion stays structural. -/
mutual

/-- JSON.stringify of a value (see the comment above). -/
def jsonStringify : JVal → String
  | .undef => "undefined"
  | .null => "null"
  | .bool b => cond b "true" "false"
  | .num q => qToString q
  | .str s => jsonQuote s
  | .arr xs => "[" ++ String.intercalate "," (jsonElemList xs) ++ "]"
  | .obj kvs => "\x7b" ++ String.intercalate "," (jsonMemberList kvs) ++ "\x7d"

def jsonElemList : List JVal → List String
  | [] => []
  | v :: rest => jsonElem v :: jsonElemList rest

def jsonElem : JVal → String
  | .undef => "null"
  | .null => "null"
  | .bool b => cond b "true" "false"
  | .num q => qToString q
  | .str s => jsonQuote s
  | .arr xs => "[" ++ String.intercalate "," (jsonElemList xs) ++ "]"
  | .obj kvs => "\x7b" ++ String.intercalate "," (jsonMemberList kvs) ++ "\x7d"

def jsonMemberList : List (String × JVal) → List String
  | [] => []
  | (_, JVal.undef) :: rest => jsonMemberList rest
  | (k, v) :: rest => (jsonQuote k ++ ":" ++ jsonElem v) :: jsonMemberList rest

end

/-- Case-insensitive literal word match at the head of the input,
returning the original-case matched text. -/
def tryCI (w : String) (cs : List Char) : Option String :=
  let n := w.length
  let pre := cs.take n
  if pre.length = n && pre.map jsLowerChar = w.toList.map jsLowerChar then
    some (String.mk pre)
  else none

/-- Leftmost match of the currency regex of normalizeItem (line 335):
one of the euro/dollar/pound signs, or the codes RON, EUR, USD, GBP
case-insensitively, in that alternation order at each position. -/
def currencySearch : List Char → Option String
  | [] => none
  | c :: rest =>
    if c = '€' || c = '$' || c = '£' then some (String.mk [c])
    else
      match tryCI "RON" (c :: rest) with
      | some s => some s
      | none =>
        match tryCI "EUR" (c :: rest) with
        | some s => some s
        | none =>
          match tryCI "USD" (c :: rest) with
          | some s => some s
          | none =>
            match tryCI "GBP" (c :: rest) with
            | some s => some s
            | none => currencySearch rest

/-- The image-element reduction of normalizeItem (lines 345-348):
objects keep url or src (or empty), everything else is stringified. -/
def imageElem (img : JVal) : JVal :=
  if img.truthy && img.isObjLike then
    jOr (jOr (jGet img "url") (jGet img "src")) (.str "")
  else .str (jsToString img)

/-- The feature-element reduction of normalizeItem (lines 355-358):
objects keep name or title (or empty), everything else stringified. -/
def featureElem (f : JVal) : JVal :=
  if f.truthy && f.isObjLike then
    jOr (jOr (jGet f "name") (jGet f "title")) (.str "")
  else .str (jsToString f)

/-- The dealer sub-object fields of normalizeItem (lines 393-404): a
string is JSON-parsed, other values fall back through dealer-or-empty
object; a parse failure, or reading .name off a parsed null, is caught
and yields all-empty fields. -/
def dealerFields (dealerRaw : JVal) : JVal × JVal × JVal :=
  let parsed : Except Unit JVal :=
    if dealerRaw.isStr then
      match jsonParse (strContent dealerRaw) with
      | some v => .ok v
      | none => .error ()
    else .ok (jOr dealerRaw (.obj []))
  match parsed with
  | .error _ => (.str "", .str "", .str "")
  | .ok .null => (.str "", .str "", .str "")
  | .ok .undef => (.str "", .str "", .str "")
  | .ok d =>
    (jOr (jGet d "name") (.str ""),
     jOr (jOr (jGet d "city") (jGet d "location")) (.str ""),
     jOr (jOr (jGet d "phone") (jGet d "telephone")) (.str ""))

/-- normalizeItem (lines 320-414): flatten one raw record into the
canonical intermediate row.  The undefined argument defaults to an
empty object; a null argument raises on the first property access, and
a null element in a decoded attribute list raises inside the attribute
branch, exactly as in the source. -/
def normalizeItem (item0 : JVal) : Except Unit Row :=
  let item : JVal := match item0 with | .undef => JVal.obj [] | v => v
  match item with
  | .null => .error ()
  | item => do
    let rawAttrs := safeParseMaybeList (jGet item "attributes")
    let attrs ← decodeAttrPairs rawAttrs
    let out : Row := []
    let out := rowSet out "title" (jNullish (jGet item "title") (.str ""))
    let out := rowSet out "url" (jNullish (jGet item "url") (.str ""))
    let out := rowSet out "preview_image" (jNullish (jGet item "previewImage") (.str ""))
    let price := jGet item "price"
    let out :=
      if price.truthy && price.isObjLike then
        let out := rowSet out "price_amount"
          (jNullish (jGet price "amount") (jNullish (jGet price "value") (.str "")))
        rowSet out "price_currency" (jNullish (jGet price "currency") (.str ""))
      else if price.isStr then
        let s := strContent price
        let out := rowSet out "price_amount" (.str ((firstRun isRunChar s.toList).getD ""))
        rowSet out "price_currency" (.str ((currencySearch s.toList).getD ""))
      else
        rowSet (rowSet out "price_amount" (.str "")) "price_currency" (.str "")
    let images := (safeParseMaybeList (jGet item "images")).map imageElem
    let out := rowSet out "images_json" (.str (jsonStringify (.arr images)))
    let out := (images.take 10).enum.foldl
      (fun (r : Row) (iu : ℕ × JVal) => rowSet r ("image_" ++ toString (iu.1 + 1)) iu.2) out
    let features := (safeParseMaybeList (jGet item "features")).map featureElem
    let out := rowSet out "features_json" (.str (jsonStringify (.arr features)))
    let out := (features.take 10).enum.foldl
      (fun (r : Row) (iu : ℕ × JVal) => rowSet r ("feature_" ++ toString (iu.1 + 1)) iu.2) out
    let out := rowSet out "attributes_json"
      (.str (jsonStringify (.arr (attrs.map (fun (nv : JVal × JVal) =>
        JVal.obj [("name", nv.1), ("value", nv.2)])))))
    let out := (attrs.take 10).enum.foldl
      (fun (r : Row) (ia : ℕ × (JVal × JVal)) =>
        let r := rowSet r ("attribute_" ++ toString (ia.1 + 1) ++ "_name") (jOr ia.2.1 (.str ""))
        rowSet r ("attribute_" ++ toString (ia.1 + 1) ++ "_value") (jOr ia.2.2 (.str "")))
      out
    let dealer := dealerFields (jGet item "dealerDetails")
    let out := rowSet out "dealer_name" dealer.1
    let out := rowSet out "dealer_city" dealer.2.1
    let out := rowSet out "dealer_phone" dealer.2.2
    let out := rowSet out "source_id" (jNullish (jGet item "id") (.str ""))
    let out := rowSet out "seller_id" (jNullish (jGet item "sellerId") (.str ""))
    let out := rowSet out "segment" (jNullish (jGet item "segment") (.str ""))
    let out := rowSet out "category" (jNullish (jGet item "category") (.str ""))
    let out := rowSet out "rank" (jNullish (jGet item "rank") (.str ""))
    pure out

/-- The header union of toCsv (lines 562-564): all keys across the rows
in encounter order, deduplicated. -/
def unionKeys (rows : List Row) : List String :=
  rows.foldl
    (fun acc r => r.foldl
      (fun acc kv => if acc.contains kv.1 then acc else acc ++ [kv.1]) acc)
    []

/-- Double every double-quote character (replace all with two). -/
def dupQuotes (s : String) : String :=
  String.mk (s.toList.flatMap (fun c => if c = '"' then ['"', '"'] else [c]))

/-- The cell escaper of toCsv (lines 566-570): stringify (null and
undefined become empty), double the quotes, and wrap in quotes exactly
when the escaped text contains a comma, a quote or a newline. -/
def escapeCell (v : JVal) : String :=
  let str := match v with
    | .undef => ""
    | .null => ""
    | v => jsToString v
  let escaped := dupQuotes str
  if escaped.toList.any (fun c => c = '"' || c = ',' || c = '\n') then
    "\"" ++ escaped ++ "\""
  else escaped

/-- toCsv (lines 559-577): header line of the key union, then one line
per row with every header's cell escaped; empty string for no rows. -/
def toCsv (rows : List Row) : String :=
  if rows.isEmpty then ""
  else
    let headers := unionKeys rows
    String.intercalate "\n"
      (String.intercalate "," headers ::
        rows.map (fun r => String.intercalate "," (headers.map (fun h => escapeCell (rowGet r h)))))

/- Content of a double-quoted CSV cell: characters until the closing
quote, undoing doubled quotes; returns the content and the rest of the
input past the closing quote.  Part of the model of a standard
(RFC 4180 style) CSV decoder, the external party of the round-trip
property; not repository code. -/
mutual

/-- Content of a double-quoted CSV cell, after a quote was just seen:
a second quote is an escaped quote, anything else ends the cell. -/
def csvQuotedClose : List Char → List Char × List Char
  | [] => ([], [])
  | c2 :: rest2 =>
    if c2 = '"' then
      let (s, rem) := csvQuoted rest2
      ('"' :: s, rem)
    else ([], c2 :: rest2)

def csvQuoted : List Char → List Char × List Char
  | [] => ([], [])
  | c :: rest =>
    if c = '"' then csvQuotedClose rest
    else
      let (s, rem) := csvQuoted rest
      (c :: s, rem)

end

/-- One CSV cell starting at the input head: a quoted cell when it
starts with a quote, else the run up to the next comma or newline. -/
def csvCell (cs : List Char) : List Char × List Char :=
  match cs with
  | [] => ([], [])
  | c :: rest =>
    if c = '"' then csvQuoted rest
    else
      let cell := (c :: rest).takeWhile (fun c => !(c = ',' || c = '\n'))
      (cell, (c :: rest).drop cell.length)

/-- One CSV record: cells separated by commas, up to a newline or the
end of input (fuel-indexed). -/
def csvRecord (fuel : ℕ) (cs : List Char) : List String × List Char :=
  match fuel with
  | 0 => ([], cs)
  | fuel + 1 =>
    let (cell, rest) := csvCell cs
    match rest with
    | ',' :: rest2 =>
      let (cells, rem) := csvRecord fuel rest2
      (String.mk cell :: cells, rem)
    | _ => ([String.mk cell], rest)

/-- All CSV records: newline-separated (fuel-indexed). -/
def csvRecords (fuel : ℕ) (cs : List Char) : List (List String) :=
  match fuel with
  | 0 => []
  | fuel + 1 =>
    let (r, rest) := csvRecord (cs.length + 1) cs
    match rest with
    | '\n' :: rest2 => r :: csvRecords fuel rest2
    | _ => [r]

/-- A standard CSV decode of a whole text. -/
def csvDecode (s : String) : List (List String) :=
  csvRecords (s.length + 1) s.toList

/-- True only for undefined. -/
def JVal.isUndef : JVal → Bool
  | .undef => true
  | _ => false

/-- True for undefined and null. -/
def JVal.isNullish : JVal → Bool
  | .undef => true
  | .null => true
  | _ => false

/-- One source-to-destinations mapping entry loaded from the
metafields-mapping sheet. -/
structure MappingEntry where
  source : String
  dests : List String

/-- Substring test at every position of a character list. -/
def subAt (pat : List Char) : List Char → Bool
  | [] => pat.isEmpty
  | c :: rest => pat.isPrefixOf (c :: rest) || subAt pat rest

/-- String.prototype.includes. -/
def strIncludes (s pat : String) : Bool :=
  subAt pat.toList s.toList

/-- Insert into the ordered tag set (a JavaScript Set keeps insertion
order and ignores repeats). -/
def tagAdd (tags : List String) (t : String) : List String :=
  if tags.contains t then tags else tags ++ [t]

/-- One destination assignment of the mapping step (lines 720-761):
Tags accumulates into the tag set, Image Alt Text / Vendor / Variant
Price assign directly, Metafield destinations of the power source split
via extractKwHp by destination-name substring, everything else is a
plain assignment under the trimmed destination name. -/
def applyDest (source : String) (value : JVal) (st : Row × List String) (dest : String) :
    Row × List String :=
  if dest.isEmpty then st
  else
    let destTrim := jsTrim dest
    if destTrim = "Tags" then (st.1, tagAdd st.2 (jsToString value))
    else if destTrim = "Image Alt Text" then (rowSet st.1 "Image Alt Text" value, st.2)
    else if destTrim = "Vendor" then (rowSet st.1 "Vendor" value, st.2)
    else if destTrim = "Variant Price" then (rowSet st.1 "Variant Price" value, st.2)
    else if destTrim.startsWith "Metafield" then
      if source = "attributes/Power" then
        if strIncludes destTrim "putere_cp" then
          (rowSet st.1 destTrim (.str (extractKwHp value "cp")), st.2)
        else if strIncludes destTrim "putere_kw" then
          (rowSet st.1 destTrim (.str (extractKwHp value "kw")), st.2)
        else (rowSet st.1 destTrim value, st.2)
      else (rowSet st.1 destTrim value, st.2)
    else (rowSet st.1 destTrim value, st.2)

/-- The mapping step (lines 715-762): fold every mapping entry over the
empty row and tag set, skipping entries whose source value is
undefined, null or the empty string. -/
def applyMapping (item : JVal) (ml : List MappingEntry) : Row × List String :=
  ml.foldl
    (fun st e =>
      let value := if item.truthy then jGet item e.source else .undef
      if value.isEmptyish then st
      else e.dests.foldl (applyDest e.source value) st)
    ([], [])

/-- Brand and model metafields and tags (lines 764-771). -/
def brandModelStep (item : JVal) (st : Row × List String) : Row × List String :=
  let st :=
    if item.truthy && (jGet item "brand").truthy then
      (rowSet st.1 "Metafield: custom.marca [single_line_text_field]" (jGet item "brand"),
       tagAdd st.2 (jsToString (jGet item "brand")))
    else st
  if item.truthy && (jGet item "model").truthy then
    (rowSet st.1 "Metafield: custom.model [single_line_text_field]" (jGet item "model"),
     tagAdd st.2 (jsToString (jGet item "model")))
  else st

/-- Title assignment (line 773). -/
def titleStep (item : JVal) (r : Row) : Row :=
  rowSet r "Title"
    (.str (if item.truthy && (jGet item "title").truthy then jsToString (jGet item "title") else ""))

/-- The handle generated from the title slug and the record id (lines
778-788). -/
def handleOf (item : JVal) : String :=
  let rawTitle :=
    jsTrim (if item.truthy && (jGet item "title").truthy then jsToString (jGet item "title") else "")
  let slug := slugOf rawTitle
  let idStr :=
    if item.truthy && !(jGet item "id").isNullish then jsTrim (jsToString (jGet item "id")) else ""
  if !slug.isEmpty && !idStr.isEmpty then slug ++ "-" ++ idStr
  else if !idStr.isEmpty then idStr
  else slug

/-- Handle assignment (line 787). -/
def handleStep (item : JVal) (r : Row) : Row :=
  rowSet r "Handle" (.str (handleOf item))

/-- Variant SKU and Variant ID assignment (lines 790-792). -/
def skuStep (item : JVal) (r : Row) : Row :=
  let idVal :=
    if item.truthy && !(jGet item "id").isUndef then jsToString (jGet item "id") else ""
  rowSet (rowSet r "Variant SKU" (.str idVal)) "Variant ID" (.str idVal)

/-- The amount source string of the Variant Price block (lines
804-812): the first truthy of price.amount, price.total.amount,
price.value when price is a truthy object, then the flat
price/total/amount field. -/
def amountStrOf (item : JVal) : String :=
  let fromPrice :=
    if item.truthy && (jGet item "price").truthy && (jGet item "price").isObjLike then
      let price := jGet item "price"
      if (jGet price "amount").truthy then jsToString (jGet price "amount")
      else if (jGet price "total").truthy && (jGet (jGet price "total") "amount").truthy then
        jsToString (jGet (jGet price "total") "amount")
      else if (jGet price "value").truthy then jsToString (jGet price "value")
      else ""
    else ""
  if fromPrice.isEmpty && item.truthy && (jGet item "price/total/amount").truthy then
    jsToString (jGet item "price/total/amount")
  else fromPrice

/-- The parsed numeric amount (lines 814-835): none models NaN. -/
def numValOf (item : JVal) : Option ℚ :=
  let amountStr := amountStrOf item
  if amountStr.isEmpty then none
  else parseFloatQ (cleanAmount amountStr)

/-- The Variant Price block (lines 800-861): a parsed positive amount
writes the computed price; otherwise a falsy existing cell (absent or
empty) is set to the empty string and a truthy one is kept. -/
def priceStep (item : JVal) (r : Row) : Row :=
  match numValOf item with
  | some n =>
    if 0 < n then rowSet r "Variant Price" (.str (qToString (variantPriceOf n)))
    else if !(rowGet r "Variant Price").truthy then rowSet r "Variant Price" (.str "") else r
  | none =>
    if !(rowGet r "Variant Price").truthy then rowSet r "Variant Price" (.str "") else r

/-- Vendor fallback to the seller id (lines 862-865). -/
def vendorStep (item : JVal) (r : Row) : Row :=
  if !(rowGet r "Vendor").truthy && item.truthy && !(jGet item "sellerId").isUndef then
    rowSet r "Vendor" (.str (jsToString (jGet item "sellerId")))
  else r

/-- The Image Src value (lines 866-884): first truthy enumerated
images/i key for i below 50, else the first element of an images
array (object keeps url or src, other values stringified, null
stringifies too), else empty. -/
def imageSrcOf (item : JVal) : JVal :=
  if item.truthy then
    let enumerated := (List.range 50).findSome?
      (fun i =>
        let v := jGet item ("images/" ++ toString i)
        if v.truthy then some v else none)
    let img1 : JVal := match enumerated with | some v => v | none => .str ""
    match jGet item "images" with
    | .arr (firstImg :: _) =>
      if !img1.truthy then
        if firstImg.isObjLike then jOr (jOr (jGet firstImg "url") (jGet firstImg "src")) (.str "")
        else .str (jsToString firstImg)
      else img1
    | _ => img1
  else .str ""

/-- Image Src assignment (line 885). -/
def imageSrcStep (item : JVal) (r : Row) : Row :=
  rowSet r "Image Src" (imageSrcOf item)

/-- Image Alt Text default to the Title (lines 887-889). -/
def imageAltStep (r : Row) : Row :=
  if !(rowGet r "Image Alt Text").truthy then
    rowSet r "Image Alt Text" (jOr (rowGet r "Title") (.str ""))
  else r

/-- Tags join (line 891): unique tags in insertion order, empties
dropped, joined with comma-space. -/
def tagsStep (tags : List String) (r : Row) : Row :=
  rowSet r "Tags" (.str (String.intercalate ", " (tags.filter (fun t => !t.isEmpty))))

/-- The attrObj of the Body HTML block (lines 896-909): a plain-object
attributes field, or a JSON string parsing to a plain object. -/
def attrObjOf (item : JVal) : Option (List (String × JVal)) :=
  if item.truthy && (jGet item "attributes").truthy then
    match jGet item "attributes" with
    | .obj kvs => some kvs
    | .str s =>
      match jsonParse s with
      | some (.obj kvs) => some kvs
      | _ => none
    | _ => none
  else none

/-- The displayed text of one Body HTML attribute value (lines
911-952): arrays translate element-wise and join; scalars translate by
exact match, else part-by-part on commas; colour attributes are exempt
from value translation. -/
def bodyAttrEntryText (key : String) (val : JVal) : String :=
  let skip := skipValueTranslation key
  match val with
  | .arr xs =>
    String.intercalate ", " (xs.map (fun v =>
      let sv := match v with
        | .undef => ""
        | .null => ""
        | v => jsTrim (jsToString v)
      if !skip then
        match lookupTrans VALUE_TRANSLATIONS sv with
        | some tr => tr
        | none => sv
      else sv))
  | v =>
    let sv := match v with
      | .undef => ""
      | .null => ""
      | v => jsTrim (jsToString v)
    let tr := if !skip then lookupTrans VALUE_TRANSLATIONS sv else none
    match tr with
    | some t => t
    | none =>
      if !skip && sv.toList.contains ',' then
        String.intercalate ", "
          ((jsSplit sv (fun c => c = ',')).map (fun p =>
            let part := jsTrim p
            (lookupTrans VALUE_TRANSLATIONS part).getD part))
      else sv

/-- The attribute list items of Body HTML (lines 895-957). -/
def bodyAttrEntries (item : JVal) : List String :=
  match attrObjOf item with
  | some kvs =>
    kvs.map (fun kv =>
      "<li><strong>" ++ ((lookupTrans ATTR_TRANSLATIONS kv.1).getD kv.1) ++ ":</strong> " ++
        bodyAttrEntryText kv.1 kv.2 ++ "</li>")
  | none => []

/-- The feature list items of Body HTML (lines 961-971): tolerant
decode, objects reduced to name or title, falsy entries dropped,
translated by exact match on the stringified feature. -/
def bodyFeatEntries (item : JVal) : List String :=
  if item.truthy && (jGet item "features").truthy then
    let feats := ((safeParseMaybeList (jGet item "features")).map (fun f =>
      if f.truthy && f.isObjLike then jOr (jOr (jGet f "name") (jGet f "title")) (.str "")
      else .str (jsToString f))).filter JVal.truthy
    feats.map (fun f =>
      match lookupTrans FEATURE_TRANSLATIONS (jsToString f) with
      | some tr => "<li>" ++ tr ++ "</li>"
      | none => "<li>" ++ jsToString f ++ "</li>")
  else []

/-- Body HTML assembly (lines 977-990): technical-data section, then
equipment section, separated by a horizontal rule when both exist. -/
def bodyStep (item : JVal) (r : Row) : Row :=
  let attrEntries := bodyAttrEntries item
  let featEntries := bodyFeatEntries item
  let parts :=
    (if attrEntries.length > 0 then
      ["<p><strong>Date tehnice:</strong></p><ul>" ++ String.join attrEntries ++ "</ul>"]
     else []) ++
    (if featEntries.length > 0 then
      ["<p><strong>Dotari:</strong></p><ul>" ++ String.join featEntries ++ "</ul>"]
     else [])
  let body :=
    match parts with
    | [a, b] => a ++ "<hr>" ++ b
    | [a] => a
    | _ => ""
  rowSet r "Body HTML" (.str body)

/-- The separate Features column (line 992). -/
def featuresColStep (item : JVal) (r : Row) : Row :=
  let featEntries := bodyFeatEntries item
  rowSet r "Features"
    (.str (if featEntries.length > 0 then "<ul>" ++ String.join featEntries ++ "</ul>" else ""))

/-- Merge of the expanded attribute columns (lines 998-1004): add each
column only when its key is not already present. -/
def mergeCols (cols : Row) (r : Row) : Row :=
  cols.foldl (fun r kv => if rowHas r kv.1 then r else rowSet r kv.1 kv.2) r

/-- The dealer display name (lines 1008-1022): name of an object-typed
dealerDetails, or of a JSON string parsing to a truthy object; empty
otherwise. -/
def dealerNameOf (item : JVal) : JVal :=
  let dd := if item.truthy then jGet item "dealerDetails" else .undef
  if item.truthy && dd.truthy then
    if dd.isObjLike then jOr (jGet dd "name") (.str "")
    else if dd.isStr then
      match jsonParse (strContent dd) with
      | some p => if p.truthy && p.typeofObject then jOr (jGet p "name") (.str "") else .str ""
      | none => .str ""
    else .str ""
  else .str ""

/-- dealerDetails and Car Url columns (lines 1023-1024). -/
def dealerStep (item : JVal) (r : Row) : Row :=
  let r := rowSet r "dealerDetails" (dealerNameOf item)
  rowSet r "Car Url"
    (.str (if item.truthy && (jGet item "url").truthy then jsToString (jGet item "url") else ""))

/-- Removal of the Variant ID and ITP columns (lines 1027-1028). -/
def deleteStep (r : Row) : Row :=
  rowDel (rowDel r "Variant ID") "ITP"

/-- The price/withoutVAT/amount column (lines 1030-1050). -/
def priceNoVatStep (item : JVal) (r : Row) : Row :=
  let p1 : JVal :=
    if item.truthy then
      let price := jGet item "price"
      if price.typeofObject && !(price.isNullish) && (jGet price "withoutVAT").truthy
          && (jGet price "withoutVAT").typeofObject then
        jOr (jGet (jGet price "withoutVAT") "amount") (.str "")
      else .str ""
    else .str ""
  let p2 :=
    if !p1.truthy && item.truthy && jHasOwn item "price/withoutVAT/amount" then
      jGet item "price/withoutVAT/amount"
    else p1
  rowSet r "price/withoutVAT/amount" (jOr p2 (.str ""))

/-- The Power attribute value of the recompute step (lines 1063-1077):
from a plain-object attributes field, or from a JSON-string attributes
field parsing to a truthy value of typeof 'object'. -/
def powerValOf (item : JVal) : JVal :=
  if item.truthy && (jGet item "attributes").truthy then
    match jGet item "attributes" with
    | .obj kvs => rowGet kvs "Power"
    | .str s =>
      match jsonParse s with
      | some p => if p.truthy && p.typeofObject then jGet p "Power" else .undef
      | none => .undef
    | _ => .undef
  else JVal.undef

/-- The recomputed kW column value (lines 1078-1087): the matched digit
run with whitespace removed and the unit appended, or empty. -/
def powerKwOf (item : JVal) : String :=
  let pv := powerValOf item
  if pv.truthy then
    match kwRunSearch false (jsToString pv).toList with
    | some run => String.mk (run.toList.filter (fun c => !jsWhite c)) ++ " kW"
    | none => ""
  else ""

/-- The recomputed hp column value (lines 1078-1090). -/
def powerHpOf (item : JVal) : String :=
  let pv := powerValOf item
  if pv.truthy then
    match hpRunSearch (jsToString pv).toList with
    | some run => String.mk (run.toList.filter (fun c => !jsWhite c)) ++ " hp"
    | none => ""
  else ""

/-- Unconditional assignment of the two power columns (lines
1094-1095). -/
def powerStep (item : JVal) (r : Row) : Row :=
  let r := rowSet r "Metafield: custom.putere_kw [single_line_text_field]" (.str (powerKwOf item))
  rowSet r "Metafield: custom.putere_cp [single_line_text_field]" (.str (powerHpOf item))

/-- All feature strings scanned by the drive-train step (lines
1108-1136): the tolerantly decoded unified features field (objects
reduced to name or title when one is truthy, other truthy values
stringified), then the enumerated features/0..features/99 keys. -/
def collectedFeatures (item : JVal) : List String :=
  let fromUnified :=
    if item.truthy && (jGet item "features").truthy then
      (safeParseMaybeList (jGet item "features")).flatMap (fun f =>
        if f.truthy && f.isObjLike && ((jGet f "name").truthy || (jGet f "title").truthy) then
          [jsToString (jOr (jGet f "name") (jGet f "title"))]
        else if f.truthy then [jsToString f]
        else [])
    else []
  let fromEnum := (List.range 100).flatMap (fun i =>
    let key := "features/" ++ toString i
    if item.truthy && jHasOwn item key then
      let v := jGet item key
      if v.truthy then [jsToString v] else []
    else [])
  fromUnified ++ fromEnum

/-- The first-match scan of the drive-train phrases (lines 1138-1152):
each feature is trimmed and lowercased and compared for exact equality
with the three phrases; the first match decides. -/
def driveScan : List String → String
  | [] => ""
  | feat :: rest =>
    let txt := jsLower (jsTrim feat)
    if txt = "rear wheel drive" then "4x2 (RWD)"
    else if txt = "front wheel drive" then "2x4 (FWD)"
    else if txt = "four-wheel drive" || txt = "four wheel drive" then "4x4 (AWD)"
    else driveScan rest

/-- The drive-train code of a record (lines 1107-1153). -/
def driveCodeOf (item : JVal) : String :=
  driveScan (collectedFeatures item)

/-- Drive-train metafield assignment (line 1155). -/
def driveStep (item : JVal) (r : Row) : Row :=
  rowSet r "Metafield: custom.transmisie [list.single_line_text_field]" (.str (driveCodeOf item))

/-- The two business-constant columns (lines 1165 and 1173). -/
def constStep (r : Row) : Row :=
  rowSet (rowSet r "Metafield: custom.tva [single_line_text_field]" (.str "Deductibile"))
    "Template Suffix" (.str "produs_servicii")

/-- buildMetafieldsRow (lines 713-1175), as the ordered pipeline of its
steps.  Only the attribute-column expansion can raise (the unguarded
own-property test on a null attribute element); all other steps are
pure, so binding the expansion where the source calls it preserves the
observable behaviour. -/
def buildMetafieldsRow (item : JVal) (ml : List MappingEntry) : Except Unit Row := do
  let st := applyMapping item ml
  let st := brandModelStep item st
  let r := titleStep item st.1
  let r := handleStep item r
  let r := skuStep item r
  let r := priceStep item r
  let r := vendorStep item r
  let r := imageSrcStep item r
  let r := imageAltStep r
  let r := tagsStep st.2 r
  let r := bodyStep item r
  let r := featuresColStep item r
  let cols ← expandAttributesToColumns item
  let r := mergeCols cols r
  let r := dealerStep item r
  let r := deleteStep r
  let r := priceNoVatStep item r
  let r := powerStep item r
  let r := driveStep item r
  pure (constStep r)

/-! Basic algebra of the object-row operations. -/

theorem rowGet_set_self (r : Row) (k : String) (v : JVal) :
    rowGet (rowSet r k v) k = v := by
  induction r with
  | nil => simp [rowSet, rowGet, List.find?]
  | cons kv rest ih =>
    by_cases h : kv.1 = k
    · simp [rowSet, h, rowGet, List.find?]
    · have hb : (kv.1 == k) = false := beq_eq_false_iff_ne.mpr h
      simp only [rowSet, hb, Bool.false_eq_true, if_false]
      simpa [rowGet, List.find?, hb] using ih

theorem rowGet_set_other (r : Row) (k k' : String) (v : JVal) (h : k' ≠ k) :
    rowGet (rowSet r k v) k' = rowGet r k' := by
  have hkk : (k == k') = false := beq_eq_false_iff_ne.mpr (Ne.symm h)
  induction r with
  | nil => simp [rowSet, rowGet, List.find?, hkk]
  | cons kv rest ih =>
    by_cases hk : kv.1 = k
    · simp [rowSet, hk, rowGet, List.find?, hkk]
    · have hb : (kv.1 == k) = false := beq_eq_false_iff_ne.mpr hk
      simp only [rowSet, hb, Bool.false_eq_true, if_false]
      by_cases hk' : kv.1 = k'
      · simp [rowGet, List.find?, hk']
      · have hb' : (kv.1 == k') = false := beq_eq_false_iff_ne.mpr hk'
        simpa [rowGet, List.find?, hb'] using ih

theorem rowHas_set_self (r : Row) (k : String) (v : JVal) :
    rowHas (rowSet r k v) k = true := by
  induction r with
  | nil => simp [rowSet, rowHas]
  | cons kv rest ih =>
    by_cases h : kv.1 = k
    · simp [rowSet, h, rowHas]
    · have hb : (kv.1 == k) = false := beq_eq_false_iff_ne.mpr h
      simp only [rowSet, hb, Bool.false_eq_true, if_false]
      simpa [rowHas, hb] using ih

theorem rowHas_set_mono (r : Row) (k k' : String) (v : JVal) (h : rowHas r k' = true) :
    rowHas (rowSet r k v) k' = true := by
  induction r with
  | nil => simp [rowHas] at h
  | cons kv rest ih =>
    simp only [rowHas, List.any_cons, Bool.or_eq_true] at h
    by_cases hk : kv.1 = k
    · rcases h with h | h
      · have hh : kv.1 = k' := by simpa using h
        have : k = k' := hk ▸ hh
        simp [rowSet, hk, rowHas, this]
      · simp [rowSet, hk, rowHas, h]
    · have hb : (kv.1 == k) = false := beq_eq_false_iff_ne.mpr hk
      simp only [rowSet, hb, Bool.false_eq_true, if_false]
      rcases h with h | h
      · simp [rowHas, h]
      · have := ih (by simpa [rowHas] using h)
        simp [rowHas] at this ⊢
        exact Or.inr this

theorem rowGet_of_not_has (r : Row) (k : String) (h : rowHas r k = false) :
    rowGet r k = .undef := by
  induction r with
  | nil => rfl
  | cons kv rest ih =>
    simp only [rowHas, List.any_cons, Bool.or_eq_false_iff] at h
    simp only [rowGet, List.find?, h.1]
    simpa [rowGet] using ih (by simpa [rowHas] using h.2)

theorem rowHas_of_truthy (r : Row) (k : String) (h : (rowGet r k).truthy = true) :
    rowHas r k = true := by
  by_cases hh : rowHas r k
  · exact hh
  · rw [rowGet_of_not_has r k (by simpa using hh)] at h
    simp [JVal.truthy] at h

theorem rowGet_del_other (r : Row) (k k' : String) (h : k' ≠ k) :
    rowGet (rowDel r k) k' = rowGet r k' := by
  induction r with
  | nil => rfl
  | cons kv rest ih =>
    by_cases hk : kv.1 = k
    · have hne : kv.1 ≠ k' := fun hh => h (hh ▸ hk ▸ rfl)
      have hb : (kv.1 == k') = false := beq_eq_false_iff_ne.mpr hne
      have hbk : (kv.1 != k) = false := by simp [bne, hk]
      simp only [rowDel, List.filter, hbk] at ih ⊢
      simp only [rowGet, List.find?, hb]
      simpa [rowGet, rowDel] using ih
    · have hbk : (kv.1 != k) = true := by simp [bne, hk]
      simp only [rowDel, List.filter, hbk]
      by_cases hk' : kv.1 = k'
      · simp [rowGet, List.find?, hk']
      · have hb' : (kv.1 == k') = false := beq_eq_false_iff_ne.mpr hk'
        simp only [rowGet, List.find?, hb']
        simpa [rowGet, rowDel] using ih

theorem rowHas_del_mono (r : Row) (k k' : String) (h : k' ≠ k) (hh : rowHas r k' = true) :
    rowHas (rowDel r k) k' = true := by
  induction r with
  | nil => simp [rowHas] at hh
  | cons kv rest ih =>
    simp only [rowHas, List.any_cons, Bool.or_eq_true] at hh
    by_cases hk : kv.1 = k
    · have hbk : (kv.1 != k) = false := by simp [bne, hk]
      simp only [rowDel, List.filter, hbk]
      rcases hh with h1 | h1
      · have h2 : kv.1 = k' := by simpa using h1
        exact absurd (h2 ▸ hk) h
      · simpa [rowDel, rowHas] using ih (by simpa [rowHas] using h1)
    · have hbk : (kv.1 != k) = true := by simp [bne, hk]
      simp only [rowDel, List.filter, hbk]
      rcases hh with h1 | h1
      · simp [rowHas, h1]
      · have := ih (by simpa [rowHas] using h1)
        simp [rowHas] at this ⊢
        exact Or.inr (by simpa [rowDel, rowHas] using this)

theorem mergeCols_get (cols : Row) (r : Row) (k : String) (h : rowHas r k = true) :
    rowGet (mergeCols cols r) k = rowGet r k := by
  induction cols generalizing r with
  | nil => rfl
  | cons kv rest ih =>
    simp only [mergeCols, List.foldl]
    by_cases hk : rowHas r kv.1
    · simp only [hk, if_true]
      exact ih r h
    · simp only [hk, Bool.false_eq_true, if_false]
      by_cases hkk : k = kv.1
      · rw [hkk] at h; exact absurd h (by simpa using hk)
      · have h2 : rowHas (rowSet r kv.1 kv.2) k = true := rowHas_set_mono _ _ _ _ h
        have hrec := ih (rowSet r kv.1 kv.2) h2
        simp only [mergeCols] at hrec
        rw [hrec, rowGet_set_other _ _ _ _ hkk]

theorem mergeCols_has (cols : Row) (r : Row) (k : String) (h : rowHas r k = true) :
    rowHas (mergeCols cols r) k = true := by
  induction cols generalizing r with
  | nil => exact h
  | cons kv rest ih =>
    simp only [mergeCols, List.foldl]
    by_cases hk : rowHas r kv.1
    · simp only [hk, if_true]
      exact ih r h
    · simp only [hk, Bool.false_eq_true, if_false]
      exact ih _ (rowHas_set_mono _ _ _ _ h)

/-! Per-step preservation lemmas for the row-builder pipeline. -/

theorem titleStep_get (item : JVal) (r : Row) (k : String) (h : k ≠ "Title") :
    rowGet (titleStep item r) k = rowGet r k :=
  rowGet_set_other _ _ _ _ h

theorem handleStep_get (item : JVal) (r : Row) (k : String) (h : k ≠ "Handle") :
    rowGet (handleStep item r) k = rowGet r k :=
  rowGet_set_other _ _ _ _ h

theorem skuStep_get (item : JVal) (r : Row) (k : String)
    (h1 : k ≠ "Variant SKU") (h2 : k ≠ "Variant ID") :
    rowGet (skuStep item r) k = rowGet r k := by
  unfold skuStep
  rw [rowGet_set_other _ _ _ _ h2, rowGet_set_other _ _ _ _ h1]

theorem priceStep_get (item : JVal) (r : Row) (k : String) (h : k ≠ "Variant Price") :
    rowGet (priceStep item r) k = rowGet r k := by
  unfold priceStep
  cases numValOf item with
  | none => dsimp only; split_ifs <;> first | rfl | exact rowGet_set_other _ _ _ _ h
  | some n => dsimp only; split_ifs <;> first | rfl | exact rowGet_set_other _ _ _ _ h

theorem vendorStep_get (item : JVal) (r : Row) (k : String) (h : k ≠ "Vendor") :
    rowGet (vendorStep item r) k = rowGet r k := by
  unfold vendorStep
  split_ifs <;> first | rfl | exact rowGet_set_other _ _ _ _ h

theorem imageSrcStep_get (item : JVal) (r : Row) (k : String) (h : k ≠ "Image Src") :
    rowGet (imageSrcStep item r) k = rowGet r k :=
  rowGet_set_other _ _ _ _ h

theorem imageAltStep_get (r : Row) (k : String) (h : k ≠ "Image Alt Text") :
    rowGet (imageAltStep r) k = rowGet r k := by
  unfold imageAltStep
  split_ifs <;> first | rfl | exact rowGet_set_other _ _ _ _ h

theorem tagsStep_get (tags : List String) (r : Row) (k : String) (h : k ≠ "Tags") :
    rowGet (tagsStep tags r) k = rowGet r k :=
  rowGet_set_other _ _ _ _ h

theorem bodyStep_get (item : JVal) (r : Row) (k : String) (h : k ≠ "Body HTML") :
    rowGet (bodyStep item r) k = rowGet r k :=
  rowGet_set_other _ _ _ _ h

theorem featuresColStep_get (item : JVal) (r : Row) (k : String) (h : k ≠ "Features") :
    rowGet (featuresColStep item r) k = rowGet r k :=
  rowGet_set_other _ _ _ _ h

theorem dealerStep_get (item : JVal) (r : Row) (k : String)
    (h1 : k ≠ "dealerDetails") (h2 : k ≠ "Car Url") :
    rowGet (dealerStep item r) k = rowGet r k := by
  unfold dealerStep
  rw [rowGet_set_other _ _ _ _ h2, rowGet_set_other _ _ _ _ h1]

theorem deleteStep_get (r : Row) (k : String)
    (h1 : k ≠ "Variant ID") (h2 : k ≠ "ITP") :
    rowGet (deleteStep r) k = rowGet r k := by
  unfold deleteStep
  rw [rowGet_del_other _ _ _ h2, rowGet_del_other _ _ _ h1]

theorem priceNoVatStep_get (item : JVal) (r : Row) (k : String)
    (h : k ≠ "price/withoutVAT/amount") :
    rowGet (priceNoVatStep item r) k = rowGet r k :=
  rowGet_set_other _ _ _ _ h

theorem powerStep_get (item : JVal) (r : Row) (k : String)
    (h1 : k ≠ "Metafield: custom.putere_kw [single_line_text_field]")
    (h2 : k ≠ "Metafield: custom.putere_cp [single_line_text_field]") :
    rowGet (powerStep item r) k = rowGet r k := by
  unfold powerStep
  rw [rowGet_set_other _ _ _ _ h2, rowGet_set_other _ _ _ _ h1]

theorem driveStep_get (item : JVal) (r : Row) (k : String)
    (h : k ≠ "Metafield: custom.transmisie [list.single_line_text_field]") :
    rowGet (driveStep item r) k = rowGet r k :=
  rowGet_set_other _ _ _ _ h

theorem constStep_get (r : Row) (k : String)
    (h1 : k ≠ "Metafield: custom.tva [single_line_text_field]")
    (h2 : k ≠ "Template Suffix") :
    rowGet (constStep r) k = rowGet r k := by
  unfold constStep
  rw [rowGet_set_other _ _ _ _ h2, rowGet_set_other _ _ _ _ h1]

theorem titleStep_has (item : JVal) (r : Row) (k : String) (h : rowHas r k = true) :
    rowHas (titleStep item r) k = true := rowHas_set_mono _ _ _ _ h

theorem handleStep_has (item : JVal) (r : Row) (k : String) (h : rowHas r k = true) :
    rowHas (handleStep item r) k = true := rowHas_set_mono _ _ _ _ h

theorem skuStep_has (item : JVal) (r : Row) (k : String) (h : rowHas r k = true) :
    rowHas (skuStep item r) k = true := rowHas_set_mono _ _ _ _ (rowHas_set_mono _ _ _ _ h)

theorem priceStep_has (item : JVal) (r : Row) (k : String) (h : rowHas r k = true) :
    rowHas (priceStep item r) k = true := by
  unfold priceStep
  cases numValOf item with
  | none => dsimp only; split_ifs <;> first | exact h | exact rowHas_set_mono _ _ _ _ h
  | some n => dsimp only; split_ifs <;> first | exact h | exact rowHas_set_mono _ _ _ _ h

theorem vendorStep_has (item : JVal) (r : Row) (k : String) (h : rowHas r k = true) :
    rowHas (vendorStep item r) k = true := by
  unfold vendorStep
  split_ifs <;> first | exact h | exact rowHas_set_mono _ _ _ _ h

theorem imageSrcStep_has (item : JVal) (r : Row) (k : String) (h : rowHas r k = true) :
    rowHas (imageSrcStep item r) k = true := rowHas_set_mono _ _ _ _ h

theorem imageAltStep_has (r : Row) (k : String) (h : rowHas r k = true) :
    rowHas (imageAltStep r) k = true := by
  unfold imageAltStep
  split_ifs <;> first | exact h | exact rowHas_set_mono _ _ _ _ h

theorem tagsStep_has (tags : List String) (r : Row) (k : String) (h : rowHas r k = true) :
    rowHas (tagsStep tags r) k = true := rowHas_set_mono _ _ _ _ h

theorem bodyStep_has (item : JVal) (r : Row) (k : String) (h : rowHas r k = true) :
    rowHas (bodyStep item r) k = true := rowHas_set_mono _ _ _ _ h

theorem featuresColStep_has (item : JVal) (r : Row) (k : String) (h : rowHas r k = true) :
    rowHas (featuresColStep item r) k = true := rowHas_set_mono _ _ _ _ h

theorem dealerStep_has (item : JVal) (r : Row) (k : String) (h : rowHas r k = true) :
    rowHas (dealerStep item r) k = true := rowHas_set_mono _ _ _ _ (rowHas_set_mono _ _ _ _ h)

theorem deleteStep_has (r : Row) (k : String)
    (h1 : k ≠ "Variant ID") (h2 : k ≠ "ITP") (h : rowHas r k = true) :
    rowHas (deleteStep r) k = true :=
  rowHas_del_mono _ _ _ h2 (rowHas_del_mono _ _ _ h1 h)

theorem priceNoVatStep_has (item : JVal) (r : Row) (k : String) (h : rowHas r k = true) :
    rowHas (priceNoVatStep item r) k = true := rowHas_set_mono _ _ _ _ h

theorem powerStep_has (item : JVal) (r : Row) (k : String) (h : rowHas r k = true) :
    rowHas (powerStep item r) k = true := rowHas_set_mono _ _ _ _ (rowHas_set_mono _ _ _ _ h)

theorem driveStep_has (item : JVal) (r : Row) (k : String) (h : rowHas r k = true) :
    rowHas (driveStep item r) k = true := rowHas_set_mono _ _ _ _ h

theorem constStep_has (r : Row) (k : String) (h : rowHas r k = true) :
    rowHas (constStep r) k = true := rowHas_set_mono _ _ _ _ (rowHas_set_mono _ _ _ _ h)

def buildPre (item : JVal) (ml : List MappingEntry) : Row × List String :=
  let st := brandModelStep item (applyMapping item ml)
  (skuStep item (handleStep item (titleStep item st.1)), st.2)

def buildPost (item : JVal) (tags : List String) (cols : Row) (r : Row) : Row :=
  constStep
    (driveStep item
      (powerStep item
        (priceNoVatStep item
          (deleteStep
            (dealerStep item
              (mergeCols cols
                (featuresColStep item
                  (bodyStep item
                    (tagsStep tags
                      (imageAltStep
                        (imageSrcStep item
                          (vendorStep item
                            (priceStep item r)))))))))))))

theorem build_ok (item : JVal) (ml : List MappingEntry) (cols : Row)
    (h : expandAttributesToColumns item = .ok cols) :
    buildMetafieldsRow item ml =
      .ok (buildPost item (buildPre item ml).2 cols (buildPre item ml).1) := by
  unfold buildMetafieldsRow buildPost buildPre
  rw [h]
  rfl

/-! Claims C10, C7 and C6. -/

def JVal.isScalarOrNull : JVal → Bool
  | .null => true
  | .bool _ => true
  | .num _ => true
  | .str _ => true
  | _ => false

theorem jsonParse_empty : jsonParse "" = none := rfl

/-- C10: when the strict JSON parse of a (trimmed) string input succeeds
with a value that is neither a list nor an object — a number, boolean,
string literal or null — safeParseMaybeList silently discards it and
returns the empty list, so such a field contributes nothing
downstream. -/
theorem c10_scalar_parse_discarded (s : String) (v : JVal)
    (hp : jsonParse (jsTrim s) = some v) (hv : v.isScalarOrNull = true) :
    safeParseMaybeList (.str s) = [] := by
  unfold safeParseMaybeList
  dsimp only
  by_cases he : (jsTrim (jsToString (.str s))).isEmpty
  · exfalso
    have : jsTrim s = "" := by
      simpa [jsToString, String.isEmpty_iff] using he
    rw [this, jsonParse_empty] at hp
    exact Option.noConfusion hp
  · simp only [jsToString] at he ⊢
    simp only [he, Bool.false_eq_true, if_false]
    rw [hp]
    cases v <;> simp [JVal.isScalarOrNull] at hv ⊢

/-- Witness for C10 at the input "42". -/
theorem c10_witness :
    jsonParse (jsTrim "42") = some (.num 42) ∧ safeParseMaybeList (.str "42") = [] :=
  ⟨rfl, c10_scalar_parse_discarded "42" (.num 42) rfl rfl⟩

-- C7 lemmas
theorem tryLen24_spec (after : List Char → Bool) (cs : List Char) (n : ℕ) (s : String)
    (h : tryLen24 after cs n = some s) :
    s.toList.length = n ∧ s.toList.all Char.isDigit = true := by
  unfold tryLen24 at h
  dsimp only at h
  split at h
  · rename_i hcond
    simp only [Bool.and_eq_true, decide_eq_true_eq] at hcond
    cases h
    exact ⟨hcond.1.1, hcond.1.2⟩
  · exact Option.noConfusion h

theorem tryDigits24_spec (after : List Char → Bool) (cs : List Char) (s : String)
    (h : tryDigits24 after cs = some s) :
    (2 ≤ s.toList.length ∧ s.toList.length ≤ 4) ∧ s.toList.all Char.isDigit = true := by
  unfold tryDigits24 at h
  cases h4 : tryLen24 after cs 4 with
  | some s4 =>
    simp only [h4] at h
    injection h with h2
    subst h2
    have := tryLen24_spec after cs 4 s4 h4
    exact ⟨by omega, this.2⟩
  | none =>
    simp only [h4] at h
    cases h3 : tryLen24 after cs 3 with
    | some s3 =>
      simp only [h3] at h
      injection h with h2
      subst h2
      have := tryLen24_spec after cs 3 s3 h3
      exact ⟨by omega, this.2⟩
    | none =>
      simp only [h3] at h
      have := tryLen24_spec after cs 2 s h
      exact ⟨by omega, this.2⟩

theorem kwSearch_spec (cs : List Char) (s : String) (h : kwSearch cs = some s) :
    (2 ≤ s.toList.length ∧ s.toList.length ≤ 4) ∧ s.toList.all Char.isDigit = true := by
  induction cs with
  | nil => exact Option.noConfusion h
  | cons c rest ih =>
    unfold kwSearch at h
    cases ht : tryDigits24 afterKw (c :: rest) with
    | some s2 =>
      simp only [ht] at h
      injection h with h2
      subst h2
      exact tryDigits24_spec _ _ _ ht
    | none =>
      simp only [ht] at h
      exact ih h

theorem hpSearch_spec (cs : List Char) (s : String) (h : hpSearch cs = some s) :
    (2 ≤ s.toList.length ∧ s.toList.length ≤ 4) ∧ s.toList.all Char.isDigit = true := by
  induction cs with
  | nil => exact Option.noConfusion h
  | cons c rest ih =>
    unfold hpSearch at h
    by_cases hc : c = '('
    · simp only [hc, if_true, if_pos] at h
      cases ht : tryDigits24 afterHp rest with
      | some s2 =>
        simp only [ht] at h
        injection h with h2
        subst h2
        exact tryDigits24_spec _ _ _ ht
      | none =>
        simp only [ht] at h
        exact ih h
    · simp only [hc, if_false, if_neg] at h
      exact ih h




/-- C7 counterexample: the claim says the metric number is matched
outside parentheses, but on "(80 kW)" — whose only kW figure sits
inside parentheses — extractKwHp still returns "80" rather than the
empty string: the kW regex has no parenthesis context at all. -/
theorem c7_counterexample_kw_inside_parens :
    extractKwHp (.str "(80 kW)") "kw" = "80" ∧ ("80" : String) ≠ "" :=
  ⟨rfl, by decide⟩

/-- C7 (amended): extractKwHp returns the 2-4 digit metric-unit number
for mode kw matched anywhere in the string (parentheses are not
excluded), the 2-4 digit imperial-unit number for mode cp matched
inside parentheses, and the empty string when the pattern is absent or
the input is null/undefined; every non-empty result is a group of two
to four digits. -/
theorem c7_extract_paired_unit :
    (∀ m : String, extractKwHp .null m = "" ∧ extractKwHp .undef m = "")
    ∧ extractKwHp (.str "195 kW (265 hp)") "kw" = "195"
    ∧ extractKwHp (.str "195 kW (265 hp)") "cp" = "265"
    ∧ extractKwHp (.str "no power listed") "kw" = ""
    ∧ extractKwHp (.str "no power listed") "cp" = ""
    ∧ (∀ s m : String, extractKwHp (.str s) m ≠ "" →
        (2 ≤ (extractKwHp (.str s) m).toList.length
          ∧ (extractKwHp (.str s) m).toList.length ≤ 4)
        ∧ (extractKwHp (.str s) m).toList.all Char.isDigit = true) := by
  refine ⟨fun m => ⟨rfl, rfl⟩, rfl, rfl, rfl, rfl, ?_⟩
  intro s m hne
  unfold extractKwHp at hne ⊢
  dsimp only at hne ⊢
  by_cases h1 : (m = "kw" && (kwSearch (jsToString (.str s)).toList).isSome) = true
  · rw [if_pos h1] at hne ⊢
    simp only [Bool.and_eq_true, Option.isSome_iff_exists] at h1
    obtain ⟨-, s', hs'⟩ := h1
    rw [hs'] at hne ⊢
    exact kwSearch_spec _ _ hs'
  · rw [if_neg (by simpa using h1)] at hne ⊢
    by_cases h2 : (m = "cp" && (hpSearch (jsToString (.str s)).toList).isSome) = true
    · rw [if_pos h2] at hne ⊢
      simp only [Bool.and_eq_true, Option.isSome_iff_exists] at h2
      obtain ⟨-, s', hs'⟩ := h2
      rw [hs'] at hne ⊢
      exact hpSearch_spec _ _ hs'
    · rw [if_neg (by simpa using h2)] at hne
      exact absurd rfl hne

/-- Witness for the digit-group clause of C7 at "195 kW (265 hp)". -/
theorem c7_witness :
    extractKwHp (.str "195 kW (265 hp)") "kw" ≠ "" ∧
      (2 ≤ (extractKwHp (.str "195 kW (265 hp)") "kw").toList.length
        ∧ (extractKwHp (.str "195 kW (265 hp)") "kw").toList.length ≤ 4)
      ∧ (extractKwHp (.str "195 kW (265 hp)") "kw").toList.all Char.isDigit = true :=
  ⟨by decide, c7_extract_paired_unit.2.2.2.2.2 "195 kW (265 hp)" "kw" (by decide)⟩

/-- C6 counterexample: the claim reads the fallback as splitting on the
delimiter together with surrounding whitespace, but the split regex
consumes only the whitespace after ';' or ','; on "a ;b" the first
piece keeps its trailing space: the result is ["a ", "b"], not
["a", "b"]. -/
theorem c6_counterexample_split_keeps_leading_space :
    safeParseMaybeList (.str "a ;b") = [.str "a ", .str "b"] ∧ ("a " : String) ≠ "a" :=
  ⟨rfl, by decide⟩

/-- C6 (amended): safeParseMaybeList returns [] for null/undefined, an
array unchanged, the parsed list when the strict JSON parse of the
trimmed string yields a list, a one-element list around a parsed
object; on parse failure it splits on ';' or ',' plus the whitespace
immediately following the delimiter (whitespace before a delimiter is
kept in the preceding piece) dropping empty pieces when a delimiter is
present, else wraps the trimmed string; a JSON array string
round-trips and "a; b; c" gives ["a","b","c"]. -/
theorem c6_coerce_to_list :
    safeParseMaybeList .null = []
    ∧ safeParseMaybeList .undef = []
    ∧ (∀ xs, safeParseMaybeList (.arr xs) = xs)
    ∧ (∀ s xs, jsonParse (jsTrim s) = some (.arr xs) → safeParseMaybeList (.str s) = xs)
    ∧ (∀ s kvs, jsonParse (jsTrim s) = some (.obj kvs) →
        safeParseMaybeList (.str s) = [.obj kvs])
    ∧ (∀ s, jsTrim s ≠ "" → jsonParse (jsTrim s) = none → hasDelim (jsTrim s) = true →
        safeParseMaybeList (.str s) =
          ((splitDelim (jsTrim s).toList []).filter (fun t => !t.isEmpty)).map JVal.str)
    ∧ (∀ s, jsTrim s ≠ "" → jsonParse (jsTrim s) = none → hasDelim (jsTrim s) = false →
        safeParseMaybeList (.str s) = [.str (jsTrim s)])
    ∧ safeParseMaybeList (.str "[\"a\",\"b\"]") = [.str "a", .str "b"]
    ∧ safeParseMaybeList (.str "a; b; c") = [.str "a", .str "b", .str "c"] := by
  refine ⟨rfl, rfl, fun xs => rfl, ?_, ?_, ?_, ?_, rfl, rfl⟩
  · intro s xs hp
    unfold safeParseMaybeList
    dsimp only
    by_cases he : (jsTrim (jsToString (.str s))).isEmpty
    · exfalso
      have h0 : jsTrim s = "" := by simpa [jsToString, String.isEmpty_iff] using he
      rw [h0, jsonParse_empty] at hp
      exact Option.noConfusion hp
    · simp only [jsToString] at he ⊢
      simp only [he, Bool.false_eq_true, if_false]
      rw [hp]
  · intro s kvs hp
    unfold safeParseMaybeList
    dsimp only
    by_cases he : (jsTrim (jsToString (.str s))).isEmpty
    · exfalso
      have h0 : jsTrim s = "" := by simpa [jsToString, String.isEmpty_iff] using he
      rw [h0, jsonParse_empty] at hp
      exact Option.noConfusion hp
    · simp only [jsToString] at he ⊢
      simp only [he, Bool.false_eq_true, if_false]
      rw [hp]
  · intro s hne hp hd
    unfold safeParseMaybeList
    dsimp only
    have he : (jsTrim (jsToString (.str s))).isEmpty = false := by
      show (jsTrim s).isEmpty = false
      cases hq : (jsTrim s).isEmpty
      · rfl
      · exact absurd (by simpa [String.isEmpty_iff] using hq) hne
    simp only [jsToString] at he ⊢
    simp only [he, Bool.false_eq_true, if_false]
    rw [hp, hd]
    simp
  · intro s hne hp hd
    unfold safeParseMaybeList
    dsimp only
    have he : (jsTrim (jsToString (.str s))).isEmpty = false := by
      show (jsTrim s).isEmpty = false
      cases hq : (jsTrim s).isEmpty
      · rfl
      · exact absurd (by simpa [String.isEmpty_iff] using hq) hne
    simp only [jsToString] at he ⊢
    simp only [he, Bool.false_eq_true, if_false]
    rw [hp, hd]
    simp

/-- Witness for the JSON-array clause of C6. -/
theorem c6_witness :
    safeParseMaybeList (.str " [\"x\"] ") = [.str "x"] :=
  c6_coerce_to_list.2.2.2.1 " [\"x\"] " [.str "x"] rfl



/-! Pipeline access lemmas, claims C8 and C2. -/

theorem build_ok_inv (item : JVal) (ml : List MappingEntry) (r : Row)
    (h : buildMetafieldsRow item ml = .ok r) :
    ∃ cols, expandAttributesToColumns item = .ok cols ∧
      r = buildPost item (buildPre item ml).2 cols (buildPre item ml).1 := by
  cases hcols : expandAttributesToColumns item with
  | error e =>
    exfalso
    unfold buildMetafieldsRow at h
    rw [hcols] at h
    exact Except.noConfusion h
  | ok cols =>
    refine ⟨cols, rfl, ?_⟩
    rw [build_ok item ml cols hcols] at h
    exact (Except.ok.inj h).symm

theorem buildPost_get_trans (item : JVal) (tags : List String) (cols : Row) (r : Row) :
    rowGet (buildPost item tags cols r)
        "Metafield: custom.transmisie [list.single_line_text_field]" =
      .str (driveCodeOf item) := by
  unfold buildPost
  rw [constStep_get _ _ (by decide) (by decide)]
  unfold driveStep
  exact rowGet_set_self _ _ _

theorem buildPost_get_kw (item : JVal) (tags : List String) (cols : Row) (r : Row) :
    rowGet (buildPost item tags cols r)
        "Metafield: custom.putere_kw [single_line_text_field]" =
      .str (powerKwOf item) := by
  unfold buildPost
  rw [constStep_get _ _ (by decide) (by decide), driveStep_get _ _ _ (by decide)]
  unfold powerStep
  rw [rowGet_set_other _ _ _ _ (by decide)]
  exact rowGet_set_self _ _ _

theorem buildPost_get_cp (item : JVal) (tags : List String) (cols : Row) (r : Row) :
    rowGet (buildPost item tags cols r)
        "Metafield: custom.putere_cp [single_line_text_field]" =
      .str (powerHpOf item) := by
  unfold buildPost
  rw [constStep_get _ _ (by decide) (by decide), driveStep_get _ _ _ (by decide)]
  unfold powerStep
  exact rowGet_set_self _ _ _

theorem priceStep_has_vp (item : JVal) (r : Row) :
    rowHas (priceStep item r) "Variant Price" = true := by
  unfold priceStep
  cases numValOf item with
  | some n =>
    dsimp only
    split_ifs with h1 h2
    · exact rowHas_set_self _ _ _
    · exact rowHas_set_self _ _ _
    · exact rowHas_of_truthy _ _ (by revert h2; cases (rowGet r "Variant Price").truthy <;> simp)
  | none =>
    dsimp only
    split_ifs with h2
    · exact rowHas_set_self _ _ _
    · exact rowHas_of_truthy _ _ (by revert h2; cases (rowGet r "Variant Price").truthy <;> simp)

theorem buildPost_get_vp (item : JVal) (tags : List String) (cols : Row) (r : Row) :
    rowGet (buildPost item tags cols r) "Variant Price" =
      rowGet (priceStep item r) "Variant Price" := by
  unfold buildPost
  rw [constStep_get _ _ (by decide) (by decide), driveStep_get _ _ _ (by decide),
    powerStep_get _ _ _ (by decide) (by decide), priceNoVatStep_get _ _ _ (by decide),
    deleteStep_get _ _ (by decide) (by decide), dealerStep_get _ _ _ (by decide) (by decide),
    mergeCols_get _ _ _ ?_, featuresColStep_get _ _ _ (by decide),
    bodyStep_get _ _ _ (by decide), tagsStep_get _ _ _ (by decide),
    imageAltStep_get _ _ (by decide), imageSrcStep_get _ _ _ (by decide),
    vendorStep_get _ _ _ (by decide)]
  · exact featuresColStep_has _ _ _ (bodyStep_has _ _ _ (tagsStep_has _ _ _
      (imageAltStep_has _ _ (imageSrcStep_has _ _ _ (vendorStep_has _ _ _
        (priceStep_has_vp item r))))))

theorem buildPost_get_handle (item : JVal) (tags : List String) (cols : Row) (r : Row)
    (h : rowHas r "Handle" = true) :
    rowGet (buildPost item tags cols r) "Handle" = rowGet r "Handle" := by
  unfold buildPost
  rw [constStep_get _ _ (by decide) (by decide), driveStep_get _ _ _ (by decide),
    powerStep_get _ _ _ (by decide) (by decide), priceNoVatStep_get _ _ _ (by decide),
    deleteStep_get _ _ (by decide) (by decide), dealerStep_get _ _ _ (by decide) (by decide),
    mergeCols_get _ _ _ ?_, featuresColStep_get _ _ _ (by decide),
    bodyStep_get _ _ _ (by decide), tagsStep_get _ _ _ (by decide),
    imageAltStep_get _ _ (by decide), imageSrcStep_get _ _ _ (by decide),
    vendorStep_get _ _ _ (by decide), priceStep_get _ _ _ (by decide)]
  · exact featuresColStep_has _ _ _ (bodyStep_has _ _ _ (tagsStep_has _ _ _
      (imageAltStep_has _ _ (imageSrcStep_has _ _ _ (vendorStep_has _ _ _
        (priceStep_has _ _ _ h))))))




/-- The drive-train phrase table as the claim words it: compare the
trimmed feature case-insensitively for exact phrase equality. -/
def specPhraseCode (f : String) : Option String :=
  let t := jsLower (jsTrim f)
  if t = jsLower "Rear wheel drive" then some "4x2 (RWD)"
  else if t = jsLower "Front wheel drive" then some "2x4 (FWD)"
  else if t = jsLower "Four-wheel drive" || t = jsLower "Four wheel drive" then some "4x4 (AWD)"
  else none

/-- First match in scan order, empty when nothing matches. -/
def specDriveScan (fs : List String) : String :=
  (fs.findSome? specPhraseCode).getD ""

theorem driveScan_eq_spec (fs : List String) : driveScan fs = specDriveScan fs := by
  induction fs with
  | nil => rfl
  | cons f rest ih =>
    unfold driveScan specDriveScan specPhraseCode
    simp only [List.findSome?]
    have e1 : jsLower "Rear wheel drive" = "rear wheel drive" := rfl
    have e2 : jsLower "Front wheel drive" = "front wheel drive" := rfl
    have e3 : jsLower "Four-wheel drive" = "four-wheel drive" := rfl
    have e4 : jsLower "Four wheel drive" = "four wheel drive" := rfl
    rw [e1, e2, e3, e4]
    by_cases h1 : jsLower (jsTrim f) = "rear wheel drive"
    · simp [h1]
    · by_cases h2 : jsLower (jsTrim f) = "front wheel drive"
      · simp [h1, h2]
      · by_cases h3 : (jsLower (jsTrim f) = "four-wheel drive"
            || jsLower (jsTrim f) = "four wheel drive") = true
        · simp [h1, h2, h3]
        · simp only [h1, h2, h3, Bool.false_eq_true, if_false, Option.getD]
          rw [ih]
          rfl

/-- C8: the drive-train metafield equals the first-match scan, in
order, over all collected feature strings (unified field decoded
tolerantly, then enumerated features/0..features/99), each compared
after trimming case-insensitively for exact phrase equality with the
three drive phrases; an empty or non-matching list leaves it empty. -/
theorem c8_drive_train (item : JVal) (ml : List MappingEntry) (r : Row)
    (h : buildMetafieldsRow item ml = .ok r) :
    rowGet r "Metafield: custom.transmisie [list.single_line_text_field]" =
      .str (specDriveScan (collectedFeatures item))
    ∧ driveCodeOf (.obj [("features", .arr [.str "Heated seats", .str "FOUR WHEEL DRIVE"])])
        = "4x4 (AWD)"
    ∧ driveCodeOf (.obj [("features", .arr [.str "Front wheel drive"])]) = "2x4 (FWD)"
    ∧ driveCodeOf (.obj [("features", .arr [])]) = ""
    ∧ driveCodeOf (.obj [("features", .arr [.str "Heated seats"])]) = "" := by
  obtain ⟨cols, hcols, hr⟩ := build_ok_inv item ml r h
  subst hr
  refine ⟨?_, rfl, rfl, rfl, rfl⟩
  rw [buildPost_get_trans]
  unfold driveCodeOf
  rw [driveScan_eq_spec]

/-- Witness for C8 at a record whose features hold "Front wheel
drive". -/
theorem c8_witness :
    (buildMetafieldsRow (.obj [("features", .arr [.str "Front wheel drive"])]) []).map
        (fun r => rowGet r "Metafield: custom.transmisie [list.single_line_text_field]") =
      .ok (.str "2x4 (FWD)") := by
  cases hb : buildMetafieldsRow (.obj [("features", .arr [.str "Front wheel drive"])]) [] with
  | error e =>
    have hok : (buildMetafieldsRow (.obj [("features", .arr [.str "Front wheel drive"])]) []).isOk
        = true := rfl
    rw [hb] at hok
    exact Bool.noConfusion hok
  | ok r =>
    simp only [Except.map]
    rw [(c8_drive_train _ [] r hb).1]
    rfl

def c2PowerItem : JVal :=
  .obj [("attributes", .obj [("Power", .str "195 kW (265 hp)")])]

/-- C2 counterexample: for attributes Power "195 kW (265 hp)" the
final power columns hold "195 kW" and "265 hp" — the inline recompute
appends the unit and uses its own wider regex — whereas the section 4.1
extractor extractKwHp returns the bare numbers "195" and "265"; the
columns therefore do not equal the extractor's output as claimed. -/
theorem c2_counterexample_units_appended :
    (buildMetafieldsRow c2PowerItem []).map
        (fun r => rowGet r "Metafield: custom.putere_kw [single_line_text_field]") =
      .ok (.str "195 kW")
    ∧ (buildMetafieldsRow c2PowerItem []).map
        (fun r => rowGet r "Metafield: custom.putere_cp [single_line_text_field]") =
      .ok (.str "265 hp")
    ∧ extractKwHp (.str "195 kW (265 hp)") "kw" = "195"
    ∧ extractKwHp (.str "195 kW (265 hp)") "cp" = "265"
    ∧ ("195 kW" : String) ≠ "195" ∧ ("265 hp" : String) ≠ "265" :=
  ⟨rfl, rfl, rfl, rfl, by decide, by decide⟩

/-- C2 (amended): after all steps the two power columns equal the
values of the dedicated recompute (powerKwOf / powerHpOf): the matched
digit run of the inline regexes with the unit suffix appended —
overwriting anything the mapping step wrote — and are empty when no
Power attribute or no match exists. -/
theorem c2_power_columns (item : JVal) (ml : List MappingEntry) (r : Row)
    (h : buildMetafieldsRow item ml = .ok r) :
    rowGet r "Metafield: custom.putere_kw [single_line_text_field]" = .str (powerKwOf item)
    ∧ rowGet r "Metafield: custom.putere_cp [single_line_text_field]" = .str (powerHpOf item)
    ∧ powerKwOf c2PowerItem = "195 kW" ∧ powerHpOf c2PowerItem = "265 hp" := by
  obtain ⟨cols, hcols, hr⟩ := build_ok_inv item ml r h
  subst hr
  exact ⟨buildPost_get_kw _ _ _ _, buildPost_get_cp _ _ _ _, rfl, rfl⟩

/-- Witness for C2 at the Power record. -/
theorem c2_witness :
    (buildMetafieldsRow c2PowerItem []).map
        (fun r => rowGet r "Metafield: custom.putere_kw [single_line_text_field]") =
      .ok (.str (powerKwOf c2PowerItem)) := by
  cases hb : buildMetafieldsRow c2PowerItem [] with
  | error e =>
    have hok : (buildMetafieldsRow c2PowerItem []).isOk = true := rfl
    rw [hb] at hok
    exact Bool.noConfusion hok
  | ok r =>
    simp only [Except.map]
    rw [(c2_power_columns _ [] r hb).1]



/-! Claims C3 and C5. -/

theorem buildPost_has (item : JVal) (tags : List String) (cols : Row) (r : Row) (k : String)
    (h1 : k ≠ "Variant ID") (h2 : k ≠ "ITP") (h : rowHas r k = true) :
    rowHas (buildPost item tags cols r) k = true := by
  unfold buildPost
  exact constStep_has _ _ (driveStep_has _ _ _ (powerStep_has _ _ _ (priceNoVatStep_has _ _ _
    (deleteStep_has _ _ h1 h2 (dealerStep_has _ _ _ (mergeCols_has _ _ _
      (featuresColStep_has _ _ _ (bodyStep_has _ _ _ (tagsStep_has _ _ _
        (imageAltStep_has _ _ (imageSrcStep_has _ _ _ (vendorStep_has _ _ _
          (priceStep_has _ _ _ h)))))))))))))

theorem buildPost_has_tags (item : JVal) (tags : List String) (cols : Row) (r : Row) :
    rowHas (buildPost item tags cols r) "Tags" = true := by
  unfold buildPost
  exact constStep_has _ _ (driveStep_has _ _ _ (powerStep_has _ _ _ (priceNoVatStep_has _ _ _
    (deleteStep_has _ _ (by decide) (by decide) (dealerStep_has _ _ _ (mergeCols_has _ _ _
      (featuresColStep_has _ _ _ (bodyStep_has _ _ _ (rowHas_set_self _ _ _)))))))))

theorem buildPost_has_body (item : JVal) (tags : List String) (cols : Row) (r : Row) :
    rowHas (buildPost item tags cols r) "Body HTML" = true := by
  unfold buildPost
  exact constStep_has _ _ (driveStep_has _ _ _ (powerStep_has _ _ _ (priceNoVatStep_has _ _ _
    (deleteStep_has _ _ (by decide) (by decide) (dealerStep_has _ _ _ (mergeCols_has _ _ _
      (featuresColStep_has _ _ _ (rowHas_set_self _ _ _))))))))

/-- C3: the error-policy claim fails on the code: a record whose
attributes decode to a list with a null first element makes the
builder raise a TypeError (the unguarded own-property test of the
attribute expander), modelled here as the error outcome; every run
that does return produces a mapping containing Title, Handle, Variant
SKU, Tags and Body HTML. -/
theorem c3_never_throws_and_core_keys :
    buildMetafieldsRow (.obj [("attributes", .arr [.null])]) [] = .error ()
    ∧ (∀ (item : JVal) (ml : List MappingEntry) (r : Row),
        buildMetafieldsRow item ml = .ok r →
          rowHas r "Title" = true ∧ rowHas r "Handle" = true ∧ rowHas r "Variant SKU" = true
          ∧ rowHas r "Tags" = true ∧ rowHas r "Body HTML" = true) := by
  refine ⟨rfl, ?_⟩
  intro item ml r h
  obtain ⟨cols, hcols, hr⟩ := build_ok_inv item ml r h
  subst hr
  refine ⟨?_, ?_, ?_, buildPost_has_tags _ _ _ _, buildPost_has_body _ _ _ _⟩
  · exact buildPost_has _ _ _ _ _ (by decide) (by decide)
      (skuStep_has _ _ _ (handleStep_has _ _ _ (rowHas_set_self _ _ _)))
  · exact buildPost_has _ _ _ _ _ (by decide) (by decide)
      (skuStep_has _ _ _ (rowHas_set_self _ _ _))
  · exact buildPost_has _ _ _ _ _ (by decide) (by decide)
      (rowHas_set_mono _ _ _ _ (rowHas_set_self _ _ _))



/-- Characters the claim allows in a handle. -/
def handleAllowedChar (c : Char) : Bool :=
  slugKeep c || c = '-'

/-- The handle as the claim describes it (with the trims the source
applies): lowercase the trimmed title, collapse runs outside [a-z0-9]
to single hyphens, trim boundary hyphens, then append the trimmed id
with a hyphen (id alone when the slug is empty, slug alone when the id
is empty). -/
def specHandle (title id : String) : String :=
  let slug := String.mk (trimHyphens (slugCollapse ((jsLower (jsTrim title)).toList)))
  let idStr := jsTrim id
  if !slug.isEmpty && !idStr.isEmpty then slug ++ "-" ++ idStr
  else if !idStr.isEmpty then idStr
  else slug

theorem handleOf_obj (t i : String) :
    handleOf (.obj [("title", .str t), ("id", .str i)]) = specHandle t i := by
  by_cases ht : t = ""
  · subst ht; rfl
  · have htr : (!t.isEmpty) = true := by
      cases hq : t.isEmpty
      · rfl
      · exact absurd (by simpa [String.isEmpty_iff] using hq) ht
    unfold handleOf specHandle slugOf
    have hg : jGet (JVal.obj [("title", JVal.str t), ("id", JVal.str i)]) "title"
        = JVal.str t := rfl
    have hgi : jGet (JVal.obj [("title", JVal.str t), ("id", JVal.str i)]) "id"
        = JVal.str i := rfl
    rw [hg, hgi]
    have hcond : ((JVal.obj [("title", JVal.str t), ("id", JVal.str i)]).truthy
        && (JVal.str t).truthy) = true := by
      show (true && !t.isEmpty) = true
      rw [Bool.true_and]
      exact htr
    rw [if_pos hcond]
    rfl

theorem slug_chars_aux (n : ℕ) : ∀ cs : List Char, cs.length ≤ n →
    (∀ c ∈ slugCollapse cs, handleAllowedChar c = true)
    ∧ (∀ c ∈ slugSkip cs, handleAllowedChar c = true) := by
  induction n with
  | zero =>
    intro cs h
    have : cs = [] := List.eq_nil_of_length_eq_zero (by omega)
    subst this
    exact ⟨by simp [slugCollapse], by simp [slugSkip]⟩
  | succ n ih =>
    intro cs h
    cases cs with
    | nil => exact ⟨by simp [slugCollapse], by simp [slugSkip]⟩
    | cons c rest =>
      have hlen : rest.length ≤ n := by
        simp only [List.length_cons] at h
        omega
      have hr := ih rest hlen
      constructor
      · intro d hd
        unfold slugCollapse at hd
        by_cases hk : slugKeep c
        · simp only [hk, if_true] at hd
          rcases List.mem_cons.mp hd with h1 | h1
          · subst h1; simp [handleAllowedChar, hk]
          · exact hr.1 d h1
        · simp only [hk, Bool.false_eq_true, if_false] at hd
          rcases List.mem_cons.mp hd with h1 | h1
          · subst h1; simp [handleAllowedChar]
          · exact hr.2 d h1
      · intro d hd
        unfold slugSkip at hd
        by_cases hk : slugKeep c
        · simp only [hk, if_true] at hd
          rcases List.mem_cons.mp hd with h1 | h1
          · subst h1; simp [handleAllowedChar, hk]
          · exact hr.1 d h1
        · simp only [hk, Bool.false_eq_true, if_false] at hd
          exact hr.2 d hd

theorem trimHyphens_subset (cs : List Char) (c : Char) (h : c ∈ trimHyphens cs) : c ∈ cs := by
  unfold trimHyphens at h
  rw [List.mem_reverse] at h
  have h2 := (List.dropWhile_suffix (fun c => c = '-')
    (l := (cs.dropWhile (fun c => c = '-')).reverse)).sublist.subset h
  rw [List.mem_reverse] at h2
  exact (List.dropWhile_suffix (fun c => c = '-') (l := cs)).sublist.subset h2

theorem toList_append (a b : String) : (a ++ b).toList = a.toList ++ b.toList := by
  cases a with
  | mk da =>
    cases b with
    | mk db => rfl

theorem specHandle_chars (t i : String)
    (hi : (jsTrim i).toList.all handleAllowedChar = true) :
    (specHandle t i).toList.all handleAllowedChar = true := by
  have hslug : ∀ c ∈ (String.mk (trimHyphens (slugCollapse ((jsLower (jsTrim t)).toList)))).toList,
      handleAllowedChar c = true := by
    intro c hc
    have hc2 : c ∈ trimHyphens (slugCollapse ((jsLower (jsTrim t)).toList)) := hc
    have hc3 := trimHyphens_subset _ _ hc2
    exact (slug_chars_aux ((jsLower (jsTrim t)).toList.length) _ le_rfl).1 c hc3
  unfold specHandle
  dsimp only
  split_ifs with h1 h2
  · rw [toList_append, toList_append, List.all_append, List.all_append]
    have hs := List.all_eq_true.mpr hslug
    rw [hs, hi]
    decide
  · exact hi
  · exact List.all_eq_true.mpr hslug

/-- C5 (amended): for a record built from a title and an id, the
Handle column of the finished row equals the slug of the trimmed,
lowercased title with non-[a-z0-9] runs collapsed to single hyphens
and boundary hyphens trimmed, followed by a hyphen and the trimmed id
(the id alone when the slug is empty, the slug alone when the id is
empty); the handle is the same across repeated construction whatever
the mapping list; and it consists only of lowercase letters, digits
and hyphens provided the trimmed id does. -/
theorem c5_handle (t i : String) (ml : List MappingEntry) :
    (buildMetafieldsRow (.obj [("title", .str t), ("id", .str i)]) ml).map
        (fun r => rowGet r "Handle") = .ok (.str (specHandle t i))
    ∧ (∀ ml' : List MappingEntry,
        (buildMetafieldsRow (.obj [("title", .str t), ("id", .str i)]) ml').map
            (fun r => rowGet r "Handle") =
          (buildMetafieldsRow (.obj [("title", .str t), ("id", .str i)]) ml).map
            (fun r => rowGet r "Handle"))
    ∧ ((jsTrim i).toList.all handleAllowedChar = true →
        (specHandle t i).toList.all handleAllowedChar = true) := by
  have hexp : expandAttributesToColumns (.obj [("title", .str t), ("id", .str i)]) = .ok [] := rfl
  have hmain : ∀ ml'' : List MappingEntry,
      (buildMetafieldsRow (.obj [("title", .str t), ("id", .str i)]) ml'').map
          (fun r => rowGet r "Handle") = .ok (.str (specHandle t i)) := by
    intro ml''
    rw [build_ok _ ml'' [] hexp]
    simp only [Except.map]
    unfold buildPre
    dsimp only
    have hh : ∀ r0 : Row,
        rowHas (handleStep (JVal.obj [("title", JVal.str t), ("id", JVal.str i)]) r0)
          "Handle" = true := by
      intro r0
      unfold handleStep
      exact rowHas_set_self _ _ _
    rw [buildPost_get_handle _ _ _ _ (skuStep_has _ _ _ (hh _))]
    rw [skuStep_get _ _ _ (by decide) (by decide)]
    unfold handleStep
    rw [rowGet_set_self, handleOf_obj]
  exact ⟨hmain ml, fun ml' => by rw [hmain ml', hmain ml], specHandle_chars t i⟩

/-- C5 counterexample: the id is appended verbatim (only trimmed), so
title "Car" with id "X Y" yields the handle "car-X Y", which contains
an uppercase letter and a space — the claim that every handle contains
only lowercase letters, digits and hyphens fails. -/
theorem c5_counterexample_charset :
    (buildMetafieldsRow (.obj [("title", .str "Car"), ("id", .str "X Y")]) []).map
        (fun r => rowGet r "Handle") = .ok (.str "car-X Y")
    ∧ ("car-X Y" = "car" ++ "-" ++ "X Y")
    ∧ ("car-X Y").toList.all handleAllowedChar = false :=
  ⟨rfl, rfl, by decide⟩

/-- Witness for C5 at title "BMW X5!" and id "123". -/
theorem c5_witness :
    (buildMetafieldsRow (.obj [("title", .str "BMW X5!"), ("id", .str "123")]) []).map
        (fun r => rowGet r "Handle") = .ok (.str (specHandle "BMW X5!" "123"))
    ∧ (specHandle "BMW X5!" "123").toList.all handleAllowedChar = true :=
  ⟨(c5_handle "BMW X5!" "123" []).1, (c5_handle "BMW X5!" "123" []).2.2 (by decide)⟩



/-- Witness for C3 (closed instance of the key-containment clause) at
the empty record. -/
theorem c3_witness :
    (buildMetafieldsRow (.obj []) []).map (fun r => rowHas r "Title") = .ok true := by
  cases hb : buildMetafieldsRow (.obj []) [] with
  | error e =>
    have hok : (buildMetafieldsRow (JVal.obj []) []).isOk = true := rfl
    rw [hb] at hok
    exact Bool.noConfusion hok
  | ok r =>
    simp only [Except.map]
    rw [(c3_never_throws_and_core_keys.2 _ [] r hb).1]

attribute [local semireducible] Rat.mul Rat.add Rat.sub Rat.inv Rat.ofScientific

theorem brandModelStep_get (item : JVal) (st : Row × List String) (k : String)
    (h1 : k ≠ "Metafield: custom.marca [single_line_text_field]")
    (h2 : k ≠ "Metafield: custom.model [single_line_text_field]") :
    rowGet (brandModelStep item st).1 k = rowGet st.1 k := by
  unfold brandModelStep
  dsimp only
  split_ifs with hb hm hm2
  · dsimp only
    rw [rowGet_set_other _ _ _ _ h2, rowGet_set_other _ _ _ _ h1]
  · dsimp only
    rw [rowGet_set_other _ _ _ _ h2]
  · dsimp only
    rw [rowGet_set_other _ _ _ _ h1]
  · rfl

theorem priceStep_vp (item : JVal) (r : Row) :
    rowGet (priceStep item r) "Variant Price" =
      (match numValOf item with
       | some n =>
         if 0 < n then .str (qToString (variantPriceOf n))
         else jOr (rowGet r "Variant Price") (.str "")
       | none => jOr (rowGet r "Variant Price") (.str "")) := by
  unfold priceStep jOr
  cases numValOf item with
  | some n =>
    dsimp only
    by_cases h1 : 0 < n
    · rw [if_pos h1, if_pos h1]
      exact rowGet_set_self _ _ _
    · rw [if_neg h1, if_neg h1]
      by_cases ht : (rowGet r "Variant Price").truthy = true
      · simp only [ht, Bool.not_true, Bool.false_eq_true, if_false, if_true]
      · have ht2 : (rowGet r "Variant Price").truthy = false := by
          cases hq : (rowGet r "Variant Price").truthy
          · rfl
          · exact absurd hq ht
        simp only [ht2, Bool.not_false, if_true, Bool.false_eq_true, if_false]
        exact rowGet_set_self _ _ _
  | none =>
    dsimp only
    by_cases ht : (rowGet r "Variant Price").truthy = true
    · simp only [ht, Bool.not_true, Bool.false_eq_true, if_false, if_true]
    · have ht2 : (rowGet r "Variant Price").truthy = false := by
        cases hq : (rowGet r "Variant Price").truthy
        · rfl
        · exact absurd hq ht
      simp only [ht2, Bool.not_false, if_true, Bool.false_eq_true, if_false]
      exact rowGet_set_self _ _ _

theorem buildPre_vp (item : JVal) (ml : List MappingEntry) :
    rowGet (buildPre item ml).1 "Variant Price" =
      rowGet (applyMapping item ml).1 "Variant Price" := by
  unfold buildPre
  dsimp only
  rw [skuStep_get _ _ _ (by decide) (by decide), handleStep_get _ _ _ (by decide),
    titleStep_get _ _ _ (by decide), brandModelStep_get _ _ _ (by decide) (by decide)]

/-- C1: in every successfully built row, Variant Price is determined by the
first truthy price amount of the record: when it parses to a positive number
n, the cell is the decimal string of round2 (n * 1.21 / 1.19 * (1 + r)) with
the commission rate r picked from the tier table by n; otherwise the truthy
mapped Variant Price is kept, else the empty string. Concretely n = 20000
gives "22268.07" at rate 9.5% and n = 100000 gives "106256.3" at rate 4.5%. -/
theorem c1_variant_price (item : JVal) (ml : List MappingEntry) (r : Row)
    (h : buildMetafieldsRow item ml = .ok r) :
    rowGet r "Variant Price" =
      (match numValOf item with
       | some n =>
         if 0 < n then .str (qToString (variantPriceOf n))
         else jOr (rowGet (applyMapping item ml).1 "Variant Price") (.str "")
       | none => jOr (rowGet (applyMapping item ml).1 "Variant Price") (.str ""))
    ∧ qToString (variantPriceOf 20000) = "22268.07"
    ∧ commissionRate 20000 = 0.095
    ∧ commissionRate 100000 = 0.045
    ∧ qToString (variantPriceOf 100000) = "106256.3" := by
  obtain ⟨cols, hcols, hr⟩ := build_ok_inv item ml r h
  subst hr
  refine ⟨?_, rfl, by norm_num [commissionRate], by norm_num [commissionRate], rfl⟩
  rw [buildPost_get_vp, priceStep_vp, buildPre_vp]

def c1Item : JVal :=
  .obj [("price", .obj [("amount", .num 0), ("total", .obj [("amount", .str "20000")])])]

/-- C1 counterexample: a record whose price.amount is the number 0 — a
non-empty field in the claim's reading — is priced from price.total.amount
instead, because the code chain skips every falsy amount, not only missing
ones. -/
theorem c1_counterexample_zero_amount_skipped :
    (buildMetafieldsRow c1Item []).map (fun r => rowGet r "Variant Price") =
      .ok (.str "22268.07")
    ∧ jGet (jGet c1Item "price") "amount" = .num 0
    ∧ ("22268.07" : String) ≠ "" :=
  ⟨rfl, rfl, by decide⟩

theorem c1_witness :
    (buildMetafieldsRow c1Item []).map (fun r => rowGet r "Variant Price") =
      .ok (.str "22268.07") := by
  cases hb : buildMetafieldsRow c1Item [] with
  | error e =>
    have hok : (buildMetafieldsRow c1Item []).isOk = true := rfl
    rw [hb] at hok
    exact Bool.noConfusion hok
  | ok r =>
    simp only [Except.map]
    rw [(c1_variant_price _ _ _ hb).1]
    rfl

/-- One character of the quote-doubling substitution of escapeCell. -/
def dupChar (c : Char) : List Char :=
  if c = '"' then ['"', '"'] else [c]

/-- A character that forces a CSV cell to be quoted: quote, comma, newline. -/
def specialChar (c : Char) : Bool :=
  c = '"' || c = ',' || c = '\n'

theorem dupQuotes_toList (s : String) :
    (dupQuotes s).toList = s.toList.flatMap dupChar := rfl

theorem any_flatMap_dupChar (cs : List Char) :
    (cs.flatMap dupChar).any specialChar = cs.any specialChar := by
  induction cs with
  | nil => rfl
  | cons c rest ih =>
    rw [List.flatMap_cons, List.any_append, List.any_cons, ih]
    congr 1
    by_cases hc : c = '"'
    · subst hc
      rfl
    · show (dupChar c).any specialChar = specialChar c
      rw [dupChar, if_neg hc]
      simp [List.any_cons]

theorem flatMap_dupChar_id (cs : List Char) (h : cs.any specialChar = false) :
    cs.flatMap dupChar = cs := by
  induction cs with
  | nil => rfl
  | cons c rest ih =>
    simp only [List.any_cons, Bool.or_eq_false_iff] at h
    have hc : c ≠ '"' := by
      intro he
      subst he
      simp [specialChar] at h
    rw [List.flatMap_cons, dupChar, if_neg hc, List.singleton_append, ih h.2]

theorem csvQuoted_cons (c : Char) (rest : List Char) :
    csvQuoted (c :: rest) =
      (if c = '"' then csvQuotedClose rest
       else
         let (s, rem) := csvQuoted rest
         (c :: s, rem)) := by
  conv_lhs => rw [csvQuoted]

theorem csvQuotedClose_cons (c2 : Char) (rest2 : List Char) :
    csvQuotedClose (c2 :: rest2) =
      (if c2 = '"' then
        let (s, rem) := csvQuoted rest2
        ('"' :: s, rem)
      else ([], c2 :: rest2)) := by
  conv_lhs => rw [csvQuotedClose]

theorem csvQuoted_dup (cs : List Char) :
    csvQuoted (cs.flatMap dupChar ++ ['"']) = (cs, []) := by
  induction cs with
  | nil => rfl
  | cons c rest ih =>
    rw [List.flatMap_cons, dupChar]
    by_cases hc : c = '"'
    · subst hc
      rw [if_pos rfl]
      simp only [List.cons_append, List.nil_append]
      rw [csvQuoted_cons, if_pos rfl, csvQuotedClose_cons, if_pos rfl, ih]
    · rw [if_neg hc]
      simp only [List.cons_append, List.nil_append]
      rw [csvQuoted_cons, if_neg hc, ih]

theorem takeWhile_no_special (cs : List Char) (h : cs.any specialChar = false) :
    cs.takeWhile (fun c => !(c = ',' || c = '\n')) = cs := by
  induction cs with
  | nil => rfl
  | cons c rest ih =>
    simp only [List.any_cons, Bool.or_eq_false_iff] at h
    have h1 : (!(decide (c = ',') || decide (c = '\n'))) = true := by
      have hc := h.1
      simp only [specialChar, Bool.or_eq_false_iff] at hc
      simp only [hc.1.2, hc.2, Bool.or_false, Bool.not_false]
    rw [List.takeWhile_cons, h1]
    simp only [if_true]
    rw [ih h.2]

theorem csvCell_cons (c : Char) (rest : List Char) :
    csvCell (c :: rest) =
      (if c = '"' then csvQuoted rest
       else
         let cell := (c :: rest).takeWhile (fun c => !(c = ',' || c = '\n'))
         (cell, (c :: rest).drop cell.length)) := rfl

theorem csvCell_plain (cs : List Char) (h : cs.any specialChar = false) :
    csvCell cs = (cs, []) := by
  cases cs with
  | nil => rfl
  | cons c rest =>
    have hq : c ≠ '"' := by
      intro he
      subst he
      simp [specialChar] at h
    rw [csvCell_cons, if_neg hq]
    dsimp only
    rw [takeWhile_no_special _ h, List.drop_length]

theorem csvCell_quote (rest : List Char) : csvCell ('"' :: rest) = csvQuoted rest := by
  rw [csvCell_cons, if_pos (show ('"' : Char) = '"' from rfl)]

theorem csvRecord_succ (fuel : ℕ) (cs : List Char) :
    csvRecord (fuel + 1) cs =
      (let p := csvCell cs
       match p.2 with
       | ',' :: rest2 =>
         let q := csvRecord fuel rest2
         (String.mk p.1 :: q.1, q.2)
       | _ => ([String.mk p.1], p.2)) := rfl

theorem csvRecords_succ (fuel : ℕ) (cs : List Char) :
    csvRecords (fuel + 1) cs =
      (let r := csvRecord (cs.length + 1) cs
       match r.2 with
       | '\n' :: rest2 => r.1 :: csvRecords fuel rest2
       | _ => [r.1]) := rfl

theorem csvDecode_one_cell (cs res : List Char) (h : csvCell cs = (res, [])) :
    csvDecode (String.mk cs) = [[String.mk res]] := by
  show csvRecords (cs.length + 1) cs = _
  rw [csvRecords_succ]
  dsimp only
  rw [csvRecord_succ]
  dsimp only
  rw [h]

theorem escapeStr_eq (str : String) :
    (if (dupQuotes str).toList.any (fun c => c = '"' || c = ',' || c = '\n') then
        "\"" ++ dupQuotes str ++ "\""
      else dupQuotes str)
    = (if str.toList.any specialChar then "\"" ++ dupQuotes str ++ "\"" else str) := by
  have hany : (dupQuotes str).toList.any (fun c => c = '"' || c = ',' || c = '\n')
      = str.toList.any specialChar := by
    rw [dupQuotes_toList]
    exact any_flatMap_dupChar _
  rw [hany]
  by_cases h : str.toList.any specialChar = true
  · rw [if_pos h, if_pos h]
  · have h2 : str.toList.any specialChar = false := by
      cases hq : str.toList.any specialChar
      · rfl
      · exact absurd hq h
    rw [if_neg h, if_neg h]
    show String.mk (str.toList.flatMap dupChar) = str
    rw [flatMap_dupChar_id _ h2]
    cases str with
    | mk d => rfl

/-- Spec-side cell escaper, following the claim's words: stringify with
null and undefined as empty, then quote the cell (doubling its quotes)
exactly when the ORIGINAL text contains a comma, quote or newline, else
leave the text as is. -/
def specEscape (v : JVal) : String :=
  let str := match v with
    | .undef => ""
    | .null => ""
    | v => jsToString v
  if str.toList.any specialChar then "\"" ++ dupQuotes str ++ "\"" else str

theorem escapeCell_eq_spec (v : JVal) : escapeCell v = specEscape v := by
  cases v
  case undef => rfl
  case null => rfl
  case bool b => exact escapeStr_eq (jsToString (JVal.bool b))
  case num q => exact escapeStr_eq (jsToString (JVal.num q))
  case str s => exact escapeStr_eq (jsToString (JVal.str s))
  case arr xs => exact escapeStr_eq (jsToString (JVal.arr xs))
  case obj kvs => exact escapeStr_eq (jsToString (JVal.obj kvs))

theorem escapeCell_roundtrip (s : String) :
    csvDecode (escapeCell (.str s)) = [[s]] := by
  rw [escapeCell_eq_spec]
  show csvDecode (if s.toList.any specialChar then "\"" ++ dupQuotes s ++ "\"" else s) = [[s]]
  by_cases h : s.toList.any specialChar = true
  · rw [if_pos h]
    have he : ("\"" ++ dupQuotes s ++ "\"")
        = String.mk ('"' :: (s.toList.flatMap dupChar ++ ['"'])) := rfl
    have hc : csvCell ('"' :: (s.toList.flatMap dupChar ++ ['"'])) = (s.toList, []) := by
      rw [csvCell_quote]
      exact csvQuoted_dup _
    rw [he, csvDecode_one_cell _ s.toList hc]
    rfl
  · have h2 : s.toList.any specialChar = false := by
      cases hq : s.toList.any specialChar
      · rfl
      · exact absurd hq h
    rw [if_neg h]
    have he : s = String.mk s.toList := rfl
    rw [he, csvDecode_one_cell _ s.toList (csvCell_plain _ h2)]

def c9Rows : List Row :=
  [[("a", .str "x,\"y\""), ("b", .str "1")], [("c", .str "z")]]

/-- C9: toCsv of no rows is empty; of nonempty rows it is the header line
(key union in encounter order) followed by one line per row whose cells
are the escaped values of each header key; the escaper agrees with the
spec's description (stringify with null/undefined empty, double quotes,
quote exactly when the original holds a comma, quote or newline); a cell
escaped then decoded by a standard CSV decoder reproduces the original
string; and on a grid with non-uniform keys and a comma-and-quote value
the whole encode/decode round trip returns the original values with
missing keys as empty cells. -/
theorem c9_to_csv :
    toCsv [] = ""
    ∧ (∀ rows, rows ≠ [] →
        toCsv rows = String.intercalate "\n"
          (String.intercalate "," (unionKeys rows) ::
            rows.map (fun r => String.intercalate ","
              ((unionKeys rows).map (fun h => escapeCell (rowGet r h))))))
    ∧ (∀ v, escapeCell v = specEscape v)
    ∧ (∀ s, csvDecode (escapeCell (.str s)) = [[s]])
    ∧ toCsv c9Rows = "a,b,c\n\"x,\"\"y\"\"\",1,\n,,z"
    ∧ csvDecode (toCsv c9Rows) = [["a", "b", "c"], ["x,\"y\"", "1", ""], ["", "", "z"]] := by
  refine ⟨rfl, ?_, escapeCell_eq_spec, escapeCell_roundtrip, rfl, rfl⟩
  intro rows hne
  unfold toCsv
  cases rows with
  | nil => exact absurd rfl hne
  | cons r rest => rfl

theorem c9_witness :
    toCsv c9Rows = String.intercalate "\n"
      (String.intercalate "," (unionKeys c9Rows) ::
        c9Rows.map (fun r => String.intercalate ","
          ((unionKeys c9Rows).map (fun h => escapeCell (rowGet r h))))) :=
  c9_to_csv.2.1 c9Rows (by simp [c9Rows])

/-- A value that is a string or nullish: `v ?? ''` then yields a string. -/
def strOrNullish (v : JVal) : Bool := v.isStr || v.isNullish

/-- A value that is a string whenever it is truthy: `v || ''` then
yields a string. -/
def strIfTruthy (v : JVal) : Bool := !v.truthy || v.isStr

/-- An images element whose object branch reads string (or absent)
url/src fields. -/
def goodImgElem (img : JVal) : Bool :=
  !(img.truthy && img.isObjLike)
    || (strIfTruthy (jGet img "url") && strIfTruthy (jGet img "src"))

/-- A features element whose object branch reads string (or absent)
name/title fields. -/
def goodFeatElem (f : JVal) : Bool :=
  !(f.truthy && f.isObjLike)
    || (strIfTruthy (jGet f "name") && strIfTruthy (jGet f "title"))

/-- A decoded attribute pair both of whose components stringify. -/
def goodPair (p : JVal × JVal) : Bool := strIfTruthy p.1 && strIfTruthy p.2

/-- A price whose object branch carries string (or absent)
amount/value/currency fields. -/
def goodPrice (price : JVal) : Bool :=
  !(price.truthy && price.isObjLike)
    || (strOrNullish (jGet price "amount") && strOrNullish (jGet price "value")
        && strOrNullish (jGet price "currency"))

/-- Dealer fields that come out as strings. -/
def goodDealer (d3 : JVal × JVal × JVal) : Bool :=
  d3.1.isStr && d3.2.1.isStr && d3.2.2.isStr

/-- All decoded attribute pairs stringify (vacuously true on the error
outcome, which normalizeItem propagates instead of building a row). -/
def goodAttrs (e : Except Unit (List (JVal × JVal))) : Bool :=
  match e with
  | .ok attrs => attrs.all goodPair
  | .error _ => true

/-- The record discipline under which every normalized field is a string:
scalar metadata fields are strings or absent, the price/images/features
elements read string fields in their object branches, decoded attribute
pairs stringify, and the dealer lookup produces strings. -/
def goodItem (item : JVal) : Bool :=
  strOrNullish (jGet item "title") && strOrNullish (jGet item "url")
  && strOrNullish (jGet item "previewImage")
  && goodPrice (jGet item "price")
  && (safeParseMaybeList (jGet item "images")).all goodImgElem
  && (safeParseMaybeList (jGet item "features")).all goodFeatElem
  && goodAttrs (decodeAttrPairs (safeParseMaybeList (jGet item "attributes")))
  && goodDealer (dealerFields (jGet item "dealerDetails"))
  && strOrNullish (jGet item "id") && strOrNullish (jGet item "sellerId")
  && strOrNullish (jGet item "segment") && strOrNullish (jGet item "category")
  && strOrNullish (jGet item "rank")

/-- Every value of the row is a string. -/
def rowAllStr (r : Row) : Bool := r.all (fun kv => kv.2.isStr)

theorem isStr_jNullish (a : JVal) (h : strOrNullish a = true) :
    (jNullish a (.str "")).isStr = true := by
  cases a <;> simp_all [strOrNullish, jNullish, JVal.isStr, JVal.isNullish]

theorem isStr_jNullish2 (a b : JVal) (ha : strOrNullish a = true)
    (hb : strOrNullish b = true) :
    (jNullish a (jNullish b (.str ""))).isStr = true := by
  cases a
  case undef => exact isStr_jNullish b hb
  case null => exact isStr_jNullish b hb
  all_goals simp_all [strOrNullish, jNullish, JVal.isStr, JVal.isNullish]

theorem isStr_jOr (a : JVal) (h : strIfTruthy a = true) :
    (jOr a (.str "")).isStr = true := by
  unfold jOr
  by_cases ht : a.truthy = true
  · rw [if_pos ht]
    simp only [strIfTruthy, ht, Bool.not_true, Bool.false_or] at h
    exact h
  · have ht2 : a.truthy = false := by
      cases hq : a.truthy
      · rfl
      · exact absurd hq ht
    rw [ht2]
    rfl

theorem isStr_jOr2 (a b : JVal) (ha : strIfTruthy a = true) (hb : strIfTruthy b = true) :
    (jOr (jOr a b) (.str "")).isStr = true := by
  unfold jOr
  by_cases hta : a.truthy = true
  · rw [if_pos hta]
    simp only [strIfTruthy, hta, Bool.not_true, Bool.false_or] at ha
    rw [if_pos]
    · exact ha
    · cases a <;> simp_all [JVal.isStr, JVal.truthy]
  · have ht2 : a.truthy = false := by
      cases hq : a.truthy
      · rfl
      · exact absurd hq hta
    rw [ht2]
    simp only [Bool.false_eq_true, if_false]
    exact isStr_jOr b hb

theorem imageElem_isStr (img : JVal) (h : goodImgElem img = true) :
    (imageElem img).isStr = true := by
  unfold imageElem
  by_cases hc : (img.truthy && img.isObjLike) = true
  · rw [if_pos hc]
    simp only [goodImgElem, hc, Bool.not_true, Bool.false_or, Bool.and_eq_true] at h
    exact isStr_jOr2 _ _ h.1 h.2
  · have hc2 : (img.truthy && img.isObjLike) = false := by
      cases hq : (img.truthy && img.isObjLike)
      · rfl
      · exact absurd hq hc
    rw [hc2]
    rfl

theorem featureElem_isStr (f : JVal) (h : goodFeatElem f = true) :
    (featureElem f).isStr = true := by
  unfold featureElem
  by_cases hc : (f.truthy && f.isObjLike) = true
  · rw [if_pos hc]
    simp only [goodFeatElem, hc, Bool.not_true, Bool.false_or, Bool.and_eq_true] at h
    exact isStr_jOr2 _ _ h.1 h.2
  · have hc2 : (f.truthy && f.isObjLike) = false := by
      cases hq : (f.truthy && f.isObjLike)
      · rfl
      · exact absurd hq hc
    rw [hc2]
    rfl

theorem rowAllStr_rowSet (r : Row) (k : String) (v : JVal)
    (hr : rowAllStr r = true) (hv : v.isStr = true) :
    rowAllStr (rowSet r k v) = true := by
  induction r with
  | nil =>
    simp [rowAllStr, rowSet, hv]
  | cons kv rest ih =>
    simp only [rowAllStr, List.all_cons, Bool.and_eq_true] at hr
    unfold rowSet
    by_cases hk : (kv.1 == k) = true
    · rw [if_pos hk]
      simp [rowAllStr, List.all_cons, hv, hr.2]
    · have hk2 : (kv.1 == k) = false := by
        cases hq : (kv.1 == k)
        · rfl
        · exact absurd hq hk
      rw [hk2]
      simp only [Bool.false_eq_true, if_false]
      simp only [rowAllStr, List.all_cons, Bool.and_eq_true]
      exact ⟨hr.1, ih hr.2⟩

theorem rowAllStr_foldl {α : Type} (l : List α) (key : α → String) (val : α → JVal)
    (init : Row) (hinit : rowAllStr init = true)
    (hval : ∀ a ∈ l, (val a).isStr = true) :
    rowAllStr (l.foldl (fun r a => rowSet r (key a) (val a)) init) = true := by
  induction l generalizing init with
  | nil => exact hinit
  | cons a rest ih =>
    rw [List.foldl_cons]
    exact ih _ (rowAllStr_rowSet _ _ _ hinit (hval a (List.mem_cons_self a rest)))
      (fun b hb => hval b (List.mem_cons_of_mem a hb))

theorem rowAllStr_foldl2 {α : Type} (l : List α) (k1 k2 : α → String)
    (v1 v2 : α → JVal) (init : Row) (hinit : rowAllStr init = true)
    (hval : ∀ a ∈ l, (v1 a).isStr = true ∧ (v2 a).isStr = true) :
    rowAllStr (l.foldl (fun r a => rowSet (rowSet r (k1 a) (v1 a)) (k2 a) (v2 a)) init)
      = true := by
  induction l generalizing init with
  | nil => exact hinit
  | cons a rest ih =>
    rw [List.foldl_cons]
    exact ih _
      (rowAllStr_rowSet _ _ _
        (rowAllStr_rowSet _ _ _ hinit (hval a (List.mem_cons_self a rest)).1)
        (hval a (List.mem_cons_self a rest)).2)
      (fun b hb => hval b (List.mem_cons_of_mem a hb))

theorem snd_mem_of_mem_enumFrom {α : Type} :
    ∀ (l : List α) (n : ℕ) (p : ℕ × α), p ∈ List.enumFrom n l → p.2 ∈ l := by
  intro l
  induction l with
  | nil =>
    intro n p hp
    exact absurd hp (List.not_mem_nil p)
  | cons a rest ih =>
    intro n p hp
    rw [List.enumFrom_cons, List.mem_cons] at hp
    cases hp with
    | inl h =>
      subst h
      exact List.mem_cons_self a rest
    | inr h =>
      exact List.mem_cons_of_mem a (ih (n + 1) p h)

theorem snd_mem_of_mem_enum {α : Type} (l : List α) (p : ℕ × α)
    (hp : p ∈ l.enum) : p.2 ∈ l :=
  snd_mem_of_mem_enumFrom l 0 p hp



/-- The row construction of normalizeItem (lines 320-414) given the
already-decoded attribute pairs: the whole let chain of the function
body after the attribute decode. -/
def normRow (item : JVal) (attrs : List (JVal × JVal)) : Row :=
  let out : Row := []
  let out := rowSet out "title" (jNullish (jGet item "title") (.str ""))
  let out := rowSet out "url" (jNullish (jGet item "url") (.str ""))
  let out := rowSet out "preview_image" (jNullish (jGet item "previewImage") (.str ""))
  let price := jGet item "price"
  let out :=
    if price.truthy && price.isObjLike then
      let out := rowSet out "price_amount"
        (jNullish (jGet price "amount") (jNullish (jGet price "value") (.str "")))
      rowSet out "price_currency" (jNullish (jGet price "currency") (.str ""))
    else if price.isStr then
      let s := strContent price
      let out := rowSet out "price_amount" (.str ((firstRun isRunChar s.toList).getD ""))
      rowSet out "price_currency" (.str ((currencySearch s.toList).getD ""))
    else
      rowSet (rowSet out "price_amount" (.str "")) "price_currency" (.str "")
  let images := (safeParseMaybeList (jGet item "images")).map imageElem
  let out := rowSet out "images_json" (.str (jsonStringify (.arr images)))
  let out := (images.take 10).enum.foldl
    (fun (r : Row) (iu : ℕ × JVal) => rowSet r ("image_" ++ toString (iu.1 + 1)) iu.2) out
  let features := (safeParseMaybeList (jGet item "features")).map featureElem
  let out := rowSet out "features_json" (.str (jsonStringify (.arr features)))
  let out := (features.take 10).enum.foldl
    (fun (r : Row) (iu : ℕ × JVal) => rowSet r ("feature_" ++ toString (iu.1 + 1)) iu.2) out
  let out := rowSet out "attributes_json"
    (.str (jsonStringify (.arr (attrs.map (fun (nv : JVal × JVal) =>
      JVal.obj [("name", nv.1), ("value", nv.2)])))))
  let out := (attrs.take 10).enum.foldl
    (fun (r : Row) (ia : ℕ × (JVal × JVal)) =>
      let r := rowSet r ("attribute_" ++ toString (ia.1 + 1) ++ "_name") (jOr ia.2.1 (.str ""))
      rowSet r ("attribute_" ++ toString (ia.1 + 1) ++ "_value") (jOr ia.2.2 (.str "")))
    out
  let dealer := dealerFields (jGet item "dealerDetails")
  let out := rowSet out "dealer_name" dealer.1
  let out := rowSet out "dealer_city" dealer.2.1
  let out := rowSet out "dealer_phone" dealer.2.2
  let out := rowSet out "source_id" (jNullish (jGet item "id") (.str ""))
  let out := rowSet out "seller_id" (jNullish (jGet item "sellerId") (.str ""))
  let out := rowSet out "segment" (jNullish (jGet item "segment") (.str ""))
  let out := rowSet out "category" (jNullish (jGet item "category") (.str ""))
  let out := rowSet out "rank" (jNullish (jGet item "rank") (.str ""))
  out

/-- The whole body of normalizeItem after the initial undefined/null
dispatch on the argument. -/
def normBody (item : JVal) : Except Unit Row := do
  let rawAttrs := safeParseMaybeList (jGet item "attributes")
  let attrs ← decodeAttrPairs rawAttrs
  pure (normRow item attrs)

theorem normBody_ok (item : JVal) (attrs : List (JVal × JVal))
    (hd : decodeAttrPairs (safeParseMaybeList (jGet item "attributes")) = .ok attrs) :
    normBody item = .ok (normRow item attrs) := by
  unfold normBody
  dsimp only
  rw [hd]
  rfl

theorem c4_body (item : JVal) (r : Row) (h : normBody item = .ok r)
    (hg : goodItem item = true) : rowAllStr r = true := by
  cases hd : decodeAttrPairs (safeParseMaybeList (jGet item "attributes")) with
  | error e =>
    unfold normBody at h
    dsimp only at h
    rw [hd] at h
    exact Except.noConfusion h
  | ok attrs =>
    rw [normBody_ok item attrs hd] at h
    have hr := (Except.ok.inj h).symm
    subst hr
    simp only [goodItem, Bool.and_eq_true] at hg
    obtain ⟨⟨⟨⟨⟨⟨⟨⟨⟨⟨⟨⟨h1, h2⟩, h3⟩, h4⟩, h5⟩, h6⟩, h7⟩, h8⟩, h9⟩, h10⟩, h11⟩, h12⟩, h13⟩ := hg
    rw [hd] at h7
    have h7x : attrs.all goodPair = true := h7
    simp only [goodDealer, Bool.and_eq_true] at h8
    obtain ⟨⟨h8a, h8b⟩, h8c⟩ := h8
    unfold normRow
    dsimp only
    have hbase : rowAllStr (rowSet (rowSet (rowSet ([] : Row) "title"
        (jNullish (jGet item "title") (.str ""))) "url"
        (jNullish (jGet item "url") (.str ""))) "preview_image"
        (jNullish (jGet item "previewImage") (.str ""))) = true := by
      refine rowAllStr_rowSet _ _ _ (rowAllStr_rowSet _ _ _
        (rowAllStr_rowSet _ _ _ rfl (isStr_jNullish _ h1)) (isStr_jNullish _ h2))
        (isStr_jNullish _ h3)
    refine rowAllStr_rowSet _ _ _ ?_ (isStr_jNullish _ h13)
    refine rowAllStr_rowSet _ _ _ ?_ (isStr_jNullish _ h12)
    refine rowAllStr_rowSet _ _ _ ?_ (isStr_jNullish _ h11)
    refine rowAllStr_rowSet _ _ _ ?_ (isStr_jNullish _ h10)
    refine rowAllStr_rowSet _ _ _ ?_ (isStr_jNullish _ h9)
    refine rowAllStr_rowSet _ _ _ ?_ h8c
    refine rowAllStr_rowSet _ _ _ ?_ h8b
    refine rowAllStr_rowSet _ _ _ ?_ h8a
    refine rowAllStr_foldl2 ((attrs.take 10).enum)
      (fun ia => "attribute_" ++ toString (ia.1 + 1) ++ "_name")
      (fun ia => "attribute_" ++ toString (ia.1 + 1) ++ "_value")
      (fun ia => jOr ia.2.1 (.str ""))
      (fun ia => jOr ia.2.2 (.str ""))
      _ ?_ ?_
    swap
    · intro a ha
      have hm : a.2 ∈ attrs := List.mem_of_mem_take (snd_mem_of_mem_enum _ _ ha)
      have hp : goodPair a.2 = true := List.all_eq_true.mp h7x a.2 hm
      simp only [goodPair, Bool.and_eq_true] at hp
      exact ⟨isStr_jOr _ hp.1, isStr_jOr _ hp.2⟩
    refine rowAllStr_rowSet _ _ _ ?_ rfl
    refine rowAllStr_foldl
      ((((safeParseMaybeList (jGet item "features")).map featureElem).take 10).enum)
      (fun iu => "feature_" ++ toString (iu.1 + 1)) (fun iu => iu.2) _ ?_ ?_
    swap
    · intro a ha
      obtain ⟨f, hf, heq⟩ :=
        List.mem_map.mp (List.mem_of_mem_take (snd_mem_of_mem_enum _ _ ha))
      show a.2.isStr = true
      rw [← heq]
      exact featureElem_isStr f (List.all_eq_true.mp h6 f hf)
    refine rowAllStr_rowSet _ _ _ ?_ rfl
    refine rowAllStr_foldl
      ((((safeParseMaybeList (jGet item "images")).map imageElem).take 10).enum)
      (fun iu => "image_" ++ toString (iu.1 + 1)) (fun iu => iu.2) _ ?_ ?_
    swap
    · intro a ha
      obtain ⟨img, himg, heq⟩ :=
        List.mem_map.mp (List.mem_of_mem_take (snd_mem_of_mem_enum _ _ ha))
      show a.2.isStr = true
      rw [← heq]
      exact imageElem_isStr img (List.all_eq_true.mp h5 img himg)
    refine rowAllStr_rowSet _ _ _ ?_ rfl
    by_cases hc1 : ((jGet item "price").truthy && (jGet item "price").isObjLike) = true
    · rw [if_pos hc1]
      simp only [goodPrice, hc1, Bool.not_true, Bool.false_or, Bool.and_eq_true] at h4
      exact rowAllStr_rowSet _ _ _
        (rowAllStr_rowSet _ _ _ hbase (isStr_jNullish2 _ _ h4.1.1 h4.1.2))
        (isStr_jNullish _ h4.2)
    · rw [if_neg hc1]
      by_cases hc2 : (jGet item "price").isStr = true
      · rw [if_pos hc2]
        exact rowAllStr_rowSet _ _ _ (rowAllStr_rowSet _ _ _ hbase rfl) rfl
      · rw [if_neg hc2]
        exact rowAllStr_rowSet _ _ _ (rowAllStr_rowSet _ _ _ hbase rfl) rfl



/-- C4 counterexample: normalizeItem copies a non-string title through
`item.title ?? ''` untouched, so a record with a numeric title yields a
normalized field that is neither a scalar string nor a JSON-encoded
string. -/
theorem c4_counterexample_nonstring_title :
    (normalizeItem (.obj [("title", .num 42)])).map (fun r => rowGet r "title")
      = .ok (.num 42)
    ∧ (JVal.num 42).isStr = false :=
  ⟨rfl, rfl⟩

/-- C4: whenever normalizeItem returns a row and the record obeys the
string discipline goodItem (scalar fields strings or absent, object
price/image/feature elements holding string fields, attribute pairs and
dealer fields stringifying), every field of the normalized row is a
string (the *_json fields being JSON-encoded strings by construction). -/
theorem c4_normalized_fields (item : JVal) (r : Row)
    (h : normalizeItem item = .ok r) (hg : goodItem item = true) :
    rowAllStr r = true := by
  cases item with
  | undef => exact c4_body (.obj []) r h (by decide)
  | null => exact Except.noConfusion h
  | bool b => exact c4_body (.bool b) r h hg
  | num q => exact c4_body (.num q) r h hg
  | str s => exact c4_body (.str s) r h hg
  | arr xs => exact c4_body (.arr xs) r h hg
  | obj kvs => exact c4_body (.obj kvs) r h hg

def c4Item : JVal :=
  .obj [("title", .str "Car"), ("price", .str "€ 39.900"),
        ("images", .str "a;b"), ("attributes", .str "Power: 100 kW")]

theorem c4_witness :
    goodItem c4Item = true
    ∧ (normalizeItem c4Item).map rowAllStr = .ok true := by
  refine ⟨by decide, ?_⟩
  cases hb : normalizeItem c4Item with
  | error e =>
    have hok : (normalizeItem c4Item).isOk = true := rfl
    rw [hb] at hok
    exact Bool.noConfusion hok
  | ok r =>
    simp only [Except.map]
    rw [c4_normalized_fields c4Item r hb (by decide)]

end MobileDe
